import Mathlib

/-!
# Verification of the family-savings simulation engine

Shallow embedding of `src/utils/calculation.ts` (the simulation-and-solver
core of the repository).  The embedding follows the source function by
function:

* `runSimulationPeriod` (source lines 21-147): the month stepper and segment
  simulator.  The imperative per-month loop is embedded as the structurally
  recursive `runSimAux` over the remaining duration; the imperative per-event
  loop (source lines 71-122) is embedded as a `List.foldl` of `processEvent`
  over the events due in the month.
* `solveRequiredDeposit` (source lines 154-206): the 20-iteration binary
  search, embedded as `solveSearch` iterating on a `(low, high, result)`
  triple, with the simulation-failure test factored out as `solverFailAt`.
  The source recomputes `lastEventMonth` inside the loop body; the value is
  loop-invariant, so the embedding computes it once (the specification notes
  this hoisting is a pure refinement with no behavior change).
* `calculateSavingsPlan` (source lines 208-303): the plan orchestrator,
  embedded as a `List.foldl` of `planStep` over the ordered distinct event
  months.

Embedding conventions:

* JavaScript IEEE-754 numbers are modelled by exact rationals `ℚ`.
* The source derives the monthly rates from annual percentages via
  `getMonthlyRate a = (1 + a/100)^(1/12) - 1` and the fractional tax rate as
  `capitalGainsTax/100`; these real 12th roots are not rational, so
  `FinancialParams` carries the already-derived per-month rates
  (`monthlyReturnRate`, `monthlyInflationRate`) and fractional `taxRate`.
  The derivation is strictly monotone with `getMonthlyRate 0 = 0` and range
  `(-1, ∞)`, so conditions on annual rates (for instance `annualReturn ≥ 0`
  or `capitalGainsTax = 0`) translate to the same conditions on the derived
  fields, and `-1 < monthlyInflationRate` holds for every derivable value.
* Calendar dates are handled only at month granularity (`addMonths` /
  `formatDate` are presentation concerns); a date is embedded as the number
  of months since the plan start, so `addMonths d m` is `d + m`.
* The JavaScript `Map<number, SavingsEvent[]>` values are embedded as
  functions `Nat → Option (List SavingsEvent)` (`none` = key absent); the
  maps in the source are only read through `.get`.
* Division by zero: `ℚ` division by zero yields 0 where JavaScript would
  produce `Infinity`/`NaN`; the denominator `1 - effectiveTaxRate` is zero
  only when the effective tax rate is exactly 100%, outside every regime
  treated by the theorems below.
-/

/-- An `Event` record (`SavingsEvent` in `src/types`): a withdrawal goal.
`monthOffset` is the number of months after the start date (the specification
constrains it to be a nonnegative integer, which the embedding realizes as
`Nat`); `targetAmount` is the target net amount in start-date money. -/
structure SavingsEvent where
  id : Nat
  name : String
  monthOffset : Nat
  targetAmount : ℚ
deriving DecidableEq

instance : Inhabited SavingsEvent := ⟨⟨0, "", 0, 0⟩⟩

/-- The sort comparator of `calculateSavingsPlan` (source line 209) is total. -/
instance : IsTotal SavingsEvent (fun a b => a.monthOffset ≤ b.monthOffset) :=
  ⟨fun a b => Nat.le_total a.monthOffset b.monthOffset⟩

/-- The sort comparator of `calculateSavingsPlan` (source line 209) is transitive. -/
instance : IsTrans SavingsEvent (fun a b => a.monthOffset ≤ b.monthOffset) :=
  ⟨fun _ _ _ hab hbc => Nat.le_trans hab hbc⟩

/-- The `Parameters` record (`FinancialParams` in `src/types`), carrying the
per-month rates derived by `getMonthlyRate` and the fractional tax rate
`capitalGainsTax / 100` (see the header comment on rate derivation).
`startDate` is the plan start expressed in months since an arbitrary epoch. -/
structure FinancialParams where
  startDate : Nat
  monthlyReturnRate : ℚ
  monthlyInflationRate : ℚ
  taxRate : ℚ
  initialCapital : ℚ
deriving DecidableEq

/-- A `Month Record` (`SimulationMonth` in `src/types`).  The optional fields
mirror the source `value > 0 ? value : undefined` conditionals; `date` is the
month expressed in months since the epoch (formatting is presentation). -/
structure SimulationMonth where
  monthIndex : Nat
  date : Nat
  deposit : ℚ
  balanceStart : ℚ
  balanceEnd : ℚ
  costBasis : ℚ
  eventOccurred : Option SavingsEvent
  withdrawalGross : Option ℚ
  withdrawalNet : Option ℚ
  taxPaid : Option ℚ
  preWithdrawalBalance : Option ℚ
  realGain : Option ℚ
  nominalGain : Option ℚ
deriving DecidableEq

instance : Inhabited SimulationMonth :=
  ⟨⟨0, 0, 0, 0, 0, 0, none, none, none, none, none, none, none⟩⟩

/-- The `Simulation Result` (`SimulationResult` in `src/types`). -/
structure SimulationResult where
  success : Bool
  schedule : List SimulationMonth
  finalBalance : ℚ
  totalDeposited : ℚ
  totalWithdrawnNet : ℚ
  totalTaxPaid : ℚ
deriving DecidableEq

/-- The mutable locals of the per-event loop of `runSimulationPeriod`
(source lines 60-122): account state, failure flag, and the month-level
accumulators `monthWithdrawalGross`, `monthWithdrawalNet`, `monthTaxPaid`,
`monthRealGain`, `monthNominalGain`, `eventRef`. -/
structure WithdrawState where
  balance : ℚ
  costBasis : ℚ
  nominalCostBasis : ℚ
  failed : Bool
  monthWithdrawalGross : ℚ
  monthWithdrawalNet : ℚ
  monthTaxPaid : ℚ
  monthRealGain : ℚ
  monthNominalGain : ℚ
  eventRef : Option SavingsEvent

/-- One iteration of the per-event loop (source lines 71-122): compute the
inflation-indexed nominal target, the effective tax rate from the real profit
ratio, the gross withdrawal, subtract it, and reduce both cost bases
proportionally (flooring them to 0 when the pre-withdrawal balance, which is
`balance + grossNeeded` after the subtraction, is not positive). -/
def processEvent (taxRate monthlyInflationRate : ℚ) (currentMonthIndex : Nat)
    (st : WithdrawState) (event : SavingsEvent) : WithdrawState :=
  let totalMonthsPassed := currentMonthIndex
  let inflationFactor := (1 + monthlyInflationRate) ^ totalMonthsPassed
  let targetNetNominal := event.targetAmount * inflationFactor
  let realProfitRatio := if st.balance > 0 then max 0 (1 - st.costBasis / st.balance) else 0
  let nominalProfitRatio := if st.balance > 0 then max 0 (1 - st.nominalCostBasis / st.balance) else 0
  let effectiveTaxRate := realProfitRatio * taxRate
  let grossNeeded := targetNetNominal / (1 - effectiveTaxRate)
  let failed := if st.balance ≤ 0 ∧ grossNeeded > 0 then true else st.failed
  let tax := grossNeeded - targetNetNominal
  let realGain := grossNeeded * realProfitRatio
  let nominalGain := grossNeeded * nominalProfitRatio
  let balance := st.balance - grossNeeded
  let costBasis :=
    if balance + grossNeeded > 0 then st.costBasis * (1 - grossNeeded / (balance + grossNeeded))
    else 0
  let nominalCostBasis :=
    if balance + grossNeeded > 0 then st.nominalCostBasis * (1 - grossNeeded / (balance + grossNeeded))
    else 0
  { balance := balance
    costBasis := costBasis
    nominalCostBasis := nominalCostBasis
    failed := failed
    monthWithdrawalGross := st.monthWithdrawalGross + grossNeeded
    monthWithdrawalNet := st.monthWithdrawalNet + targetNetNominal
    monthTaxPaid := st.monthTaxPaid + tax
    monthRealGain := st.monthRealGain + realGain
    monthNominalGain := st.monthNominalGain + nominalGain
    eventRef := some event }

/-- The account state threaded from month to month by `runSimulationPeriod`. -/
structure SimState where
  balance : ℚ
  costBasis : ℚ
  nominalCostBasis : ℚ
  failed : Bool
deriving DecidableEq

/-- One iteration of the per-month loop of `runSimulationPeriod` (source
lines 43-143): deposit, growth, inflation indexation of the real cost basis,
the per-event loop, the emitted month record, and the end-of-month tolerance
check `balance < -1`. -/
def stepMonth (params : FinancialParams) (eventsInPeriod : Nat → Option (List SavingsEvent))
    (startDate startMonthIndex : Nat) (monthlyDeposit : ℚ) (st : SimState) (i : Nat) :
    SimState × SimulationMonth :=
  let currentMonthIndex := startMonthIndex + i
  let currentDate := startDate + i
  let balanceStart := st.balance
  let balance1 := st.balance + monthlyDeposit
  let costBasis1 := st.costBasis + monthlyDeposit
  let nominalCostBasis1 := st.nominalCostBasis + monthlyDeposit
  let balance2 := balance1 * (1 + params.monthlyReturnRate)
  let costBasis2 := costBasis1 * (1 + params.monthlyInflationRate)
  let w0 : WithdrawState :=
    { balance := balance2
      costBasis := costBasis2
      nominalCostBasis := nominalCostBasis1
      failed := st.failed
      monthWithdrawalGross := 0
      monthWithdrawalNet := 0
      monthTaxPaid := 0
      monthRealGain := 0
      monthNominalGain := 0
      eventRef := none }
  let res : WithdrawState :=
    match eventsInPeriod currentMonthIndex with
    | some monthEvents =>
        monthEvents.foldl (processEvent params.taxRate params.monthlyInflationRate currentMonthIndex) w0
    | none => w0
  let preWithdrawalBalance : ℚ :=
    match eventsInPeriod currentMonthIndex with
    | some _ => balance2
    | none => 0
  let record : SimulationMonth :=
    { monthIndex := currentMonthIndex
      date := currentDate
      deposit := monthlyDeposit
      balanceStart := balanceStart
      balanceEnd := res.balance
      costBasis := res.costBasis
      eventOccurred := res.eventRef
      withdrawalGross := if res.monthWithdrawalGross > 0 then some res.monthWithdrawalGross else none
      withdrawalNet := if res.monthWithdrawalNet > 0 then some res.monthWithdrawalNet else none
      taxPaid := if res.monthTaxPaid > 0 then some res.monthTaxPaid else none
      preWithdrawalBalance := if res.monthWithdrawalGross > 0 then some preWithdrawalBalance else none
      realGain := if res.monthWithdrawalGross > 0 then some res.monthRealGain else none
      nominalGain := if res.monthWithdrawalGross > 0 then some res.monthNominalGain else none }
  let failed2 := if res.balance < -1 then true else res.failed
  ({ balance := res.balance
     costBasis := res.costBasis
     nominalCostBasis := res.nominalCostBasis
     failed := failed2 }, record)

/-- The per-month loop of `runSimulationPeriod`, unrolled over the remaining
number of months; `i` is the loop counter of the source `for` loop. -/
def runSimAux (params : FinancialParams) (eventsInPeriod : Nat → Option (List SavingsEvent))
    (startDate startMonthIndex : Nat) (monthlyDeposit : ℚ) :
    SimState → Nat → Nat → SimState × List SimulationMonth
  | st, _, 0 => (st, [])
  | st, i, n + 1 =>
    let step := stepMonth params eventsInPeriod startDate startMonthIndex monthlyDeposit st i
    let rest := runSimAux params eventsInPeriod startDate startMonthIndex monthlyDeposit step.1 (i + 1) n
    (rest.1, step.2 :: rest.2)

/-- The result record of `runSimulationPeriod` (source line 31). -/
structure PeriodResult where
  schedule : List SimulationMonth
  finalBalance : ℚ
  finalCostBasis : ℚ
  finalNominalCostBasis : ℚ
  failed : Bool
deriving DecidableEq

/-- `runSimulationPeriod` (source lines 21-147): simulate `durationMonths`
months at a fixed deposit, applying the events scheduled in
`eventsInPeriod`. -/
def runSimulationPeriod (startBalance startCostBasis startNominalCostBasis : ℚ)
    (startDate startMonthIndex durationMonths : Nat) (monthlyDeposit : ℚ)
    (params : FinancialParams) (eventsInPeriod : Nat → Option (List SavingsEvent)) :
    PeriodResult :=
  let st0 : SimState :=
    { balance := startBalance
      costBasis := startCostBasis
      nominalCostBasis := startNominalCostBasis
      failed := false }
  let run := runSimAux params eventsInPeriod startDate startMonthIndex monthlyDeposit st0 0 durationMonths
  { schedule := run.2
    finalBalance := run.1.balance
    finalCostBasis := run.1.costBasis
    finalNominalCostBasis := run.1.nominalCostBasis
    failed := run.1.failed }

/-- `Math.max(...events.map(e => e.monthOffset))` (source line 175); the
solver only evaluates it on nonempty lists, where the fold equals the
maximum offset. -/
def lastEventMonth (events : List SavingsEvent) : Nat :=
  events.foldl (fun acc e => max acc e.monthOffset) 0

/-- The `periodEvents` map built on source lines 178-182: events grouped by
month offset, preserving list order within a month; a key is present exactly
when some event has that offset. -/
def buildPeriodEvents (events : List SavingsEvent) : Nat → Option (List SavingsEvent) :=
  fun m =>
    let l := events.filter (fun e => e.monthOffset = m)
    if l = [] then none else some l

/-- One iteration of the binary-search loop (source lines 172-202) acting on
the `(low, high, result)` triple. -/
def searchStep (failAt : ℚ → Bool) (s : ℚ × ℚ × ℚ) : ℚ × ℚ × ℚ :=
  let mid := (s.1 + s.2.1) / 2
  if failAt mid then (mid, s.2.1, s.2.2) else (s.1, mid, mid)

/-- The binary-search loop of `solveRequiredDeposit`, iterated a fixed number
of times. -/
def solveSearch (failAt : ℚ → Bool) : Nat → ℚ × ℚ × ℚ → ℚ × ℚ × ℚ
  | 0, s => s
  | n + 1, s => solveSearch failAt n (searchStep failAt s)

/-- The failure test evaluated by each binary-search iteration (source lines
184-196): run the segment simulator from the current state across the span
ending at the last remaining event month, with all remaining events applied,
and report its `failed` flag. -/
def solverFailAt (startBalance startCostBasis startNominalCostBasis : ℚ)
    (startDate startMonthIndex : Nat) (events : List SavingsEvent)
    (params : FinancialParams) (mid : ℚ) : Bool :=
  let duration := lastEventMonth events + 1 - startMonthIndex
  (runSimulationPeriod startBalance startCostBasis startNominalCostBasis startDate
    startMonthIndex duration mid params (buildPeriodEvents events)).failed

/-- `solveRequiredDeposit` (source lines 154-206): 20-iteration binary search
for the smallest sufficient constant deposit in `[0, 1000000]`, rounded up to
the next multiple of 10.  `low - high + 1` style truncation: the source
duration `lastEventMonth - startMonthIndex + 1` is computed as
`lastEventMonth + 1 - startMonthIndex` so that `Nat` truncation agrees with
the JavaScript loop running zero iterations on a nonpositive duration. -/
def solveRequiredDeposit (startBalance startCostBasis startNominalCostBasis : ℚ)
    (startDate startMonthIndex : Nat) (events : List SavingsEvent)
    (params : FinancialParams) : ℚ :=
  if events = [] then 0
  else
    let maxDepositCap : ℚ := 1000000
    let final := solveSearch
      (solverFailAt startBalance startCostBasis startNominalCostBasis startDate startMonthIndex events params)
      20 (0, maxDepositCap, maxDepositCap)
    ((⌈final.2.2 / 10⌉ : ℤ) : ℚ) * 10

/-- `[...events].sort((a, b) => a.monthOffset - b.monthOffset)` (source line
209): a stable ascending sort by month offset, embedded as insertion sort
(stable, as the JavaScript specification requires of `Array.prototype.sort`). -/
def sortEvents (events : List SavingsEvent) : List SavingsEvent :=
  events.insertionSort (fun a b => a.monthOffset ≤ b.monthOffset)

/-- The mutable locals threaded through the orchestrator loop of
`calculateSavingsPlan` (source lines 224-287).  `maxDepositConstraint = none`
embeds the initial `Infinity`. -/
structure PlanState where
  balance : ℚ
  costBasis : ℚ
  nominalCostBasis : ℚ
  currentMonth : Nat
  maxDepositConstraint : Option ℚ
  schedule : List SimulationMonth

/-- One iteration of the orchestrator loop (source lines 240-287): solve for
the required deposit over all remaining events, clamp it by the
never-increase constraint, simulate this segment with only its own events,
and append the records. -/
def planStep (params : FinancialParams) (sortedEvents : List SavingsEvent)
    (st : PlanState) (nextEventMonth : Nat) : PlanState :=
  let remainingEvents := sortedEvents.filter (fun e => st.currentMonth ≤ e.monthOffset)
  let requiredDeposit := solveRequiredDeposit st.balance st.costBasis st.nominalCostBasis
    (params.startDate + st.currentMonth) st.currentMonth remainingEvents params
  let actualDeposit :=
    match st.maxDepositConstraint with
    | none => requiredDeposit
    | some c => if requiredDeposit > c then c else requiredDeposit
  let duration := nextEventMonth + 1 - st.currentMonth
  let segmentEvents : Nat → Option (List SavingsEvent) :=
    fun m =>
      if m = nextEventMonth then some (sortedEvents.filter (fun e => e.monthOffset = nextEventMonth))
      else none
  let simSegment := runSimulationPeriod st.balance st.costBasis st.nominalCostBasis
    (params.startDate + st.currentMonth) st.currentMonth duration actualDeposit params segmentEvents
  { balance := simSegment.finalBalance
    costBasis := simSegment.finalCostBasis
    nominalCostBasis := simSegment.finalNominalCostBasis
    currentMonth := nextEventMonth + 1
    maxDepositConstraint := some actualDeposit
    schedule := st.schedule ++ simSegment.schedule }

/-- `calculateSavingsPlan` (source lines 208-303).  The ordered list of
distinct event months (the sorted key set of `eventsByMonth`) is
`(… .map monthOffset).dedup`: the offsets of the sorted events with
duplicates removed, which is sorted because the input is. -/
def calculateSavingsPlan (params : FinancialParams) (events : List SavingsEvent) :
    SimulationResult :=
  let sortedEvents := sortEvents events
  if sortedEvents = [] then
    { success := true
      schedule := []
      finalBalance := params.initialCapital
      totalDeposited := 0
      totalTaxPaid := 0
      totalWithdrawnNet := 0 }
  else
    let eventMonths := (sortedEvents.map (fun e => e.monthOffset)).dedup
    let st0 : PlanState :=
      { balance := params.initialCapital
        costBasis := params.initialCapital
        nominalCostBasis := params.initialCapital
        currentMonth := 0
        maxDepositConstraint := none
        schedule := [] }
    let stF := eventMonths.foldl (planStep params sortedEvents) st0
    let fullSchedule := stF.schedule
    let totalDeposited := fullSchedule.foldl (fun acc m => acc + m.deposit) 0
    let totalWithdrawnNet := fullSchedule.foldl (fun acc m => acc + (m.withdrawalNet.getD 0)) 0
    let totalTaxPaid := fullSchedule.foldl (fun acc m => acc + (m.taxPaid.getD 0)) 0
    let failed := fullSchedule.any (fun m => m.balanceEnd < -1)
    { success := !failed
      schedule := fullSchedule
      finalBalance := stF.balance
      totalDeposited := totalDeposited
      totalWithdrawnNet := totalWithdrawnNet
      totalTaxPaid := totalTaxPaid }

/-- The inflation-indexed month-level net withdrawal demanded by the
specification: the sum, over the events due in month `m`, of
`targetAmount × (1 + monthlyInflation) ^ m` with `m` the global month index,
recorded only when positive.  Written from the words of the specification to
be compared with what `runSimulationPeriod` records. -/
def netSpec (eventsInPeriod : Nat → Option (List SavingsEvent))
    (monthlyInflationRate : ℚ) (m : Nat) : Option ℚ :=
  match eventsInPeriod m with
  | none => none
  | some es =>
    let s := es.foldl (fun acc e => acc + e.targetAmount * (1 + monthlyInflationRate) ^ m) 0
    if s > 0 then some s else none

/-- Concrete demonstration parameters: zero monthly return, zero monthly
inflation, zero tax, zero initial capital. -/
def demoParams : FinancialParams := ⟨0, 0, 0, 0, 0⟩

/-- A concrete goal: withdraw a net 11 at month 0. -/
def demoEvent : SavingsEvent := ⟨0, "goal", 0, 11⟩

/-- The month-to-events map holding exactly `demoEvent`. -/
def demoE : Nat → Option (List SavingsEvent) := buildPeriodEvents [demoEvent]

/-! ## Structural lemmas about the segment simulator -/

theorem runSimAux_snd_length (params : FinancialParams)
    (E : Nat → Option (List SavingsEvent)) (sd sm : Nat) (d : ℚ) :
    ∀ (n : Nat) (st : SimState) (i : Nat),
      (runSimAux params E sd sm d st i n).2.length = n := by
  intro n
  induction n with
  | zero => intro st i; rfl
  | succ k ih =>
    intro st i
    simp only [runSimAux, List.length_cons]
    rw [ih]

theorem runSimAux_map_monthIndex (params : FinancialParams)
    (E : Nat → Option (List SavingsEvent)) (sd sm : Nat) (d : ℚ) :
    ∀ (n : Nat) (st : SimState) (i : Nat),
      (runSimAux params E sd sm d st i n).2.map (fun r => r.monthIndex) =
        List.range' (sm + i) n := by
  intro n
  induction n with
  | zero => intro st i; rfl
  | succ k ih =>
    intro st i
    rw [List.range'_succ]
    simp only [runSimAux, List.map_cons]
    rw [ih]
    rfl

theorem runSimAux_deposit (params : FinancialParams)
    (E : Nat → Option (List SavingsEvent)) (sd sm : Nat) (d : ℚ) :
    ∀ (n : Nat) (st : SimState) (i : Nat),
      ∀ r ∈ (runSimAux params E sd sm d st i n).2, r.deposit = d := by
  intro n
  induction n with
  | zero => intro st i r hr; simp [runSimAux] at hr
  | succ k ih =>
    intro st i r hr
    simp only [runSimAux, List.mem_cons] at hr
    rcases hr with h | h
    · subst h; rfl
    · exact ih _ _ r h

/-! ## C6: the no-goals identity -/

/-- C6.  For every `Parameters` record and an empty goal list,
`calculateSavingsPlan` returns success, an empty schedule, a final balance
equal to the initial capital, and zero totals. -/
theorem calculateSavingsPlan_no_goals (params : FinancialParams) :
    (calculateSavingsPlan params []).success = true ∧
    (calculateSavingsPlan params []).schedule = [] ∧
    (calculateSavingsPlan params []).finalBalance = params.initialCapital ∧
    (calculateSavingsPlan params []).totalDeposited = 0 ∧
    (calculateSavingsPlan params []).totalWithdrawnNet = 0 ∧
    (calculateSavingsPlan params []).totalTaxPaid = 0 :=
  ⟨rfl, rfl, rfl, rfl, rfl, rfl⟩

/-! ## C4: structural infeasibility reporting -/

/-- C4.  `calculateSavingsPlan` is a total function (the embedding returns a
`SimulationResult` on every input, never an exception), and its success flag
is true exactly when no month record of the full schedule has an ending
balance strictly below the -1 tolerance; in particular a month-end balance of
exactly -1 is still a success and anything strictly below is a failure. -/
theorem calculateSavingsPlan_success_iff (params : FinancialParams)
    (events : List SavingsEvent) :
    (calculateSavingsPlan params events).success = true ↔
      ∀ m ∈ (calculateSavingsPlan params events).schedule, -1 ≤ m.balanceEnd := by
  unfold calculateSavingsPlan
  by_cases h : sortEvents events = []
  · simp [h]
  · simp only [if_neg h]
    simp [not_lt]

/-! ## C5: inflation indexation of withdrawal targets -/

theorem foldl_processEvent_net (t infl : ℚ) (m : Nat) :
    ∀ (es : List SavingsEvent) (w : WithdrawState),
      (es.foldl (processEvent t infl m) w).monthWithdrawalNet =
        es.foldl (fun acc e => acc + e.targetAmount * (1 + infl) ^ m) w.monthWithdrawalNet := by
  intro es
  induction es with
  | nil => intro w; rfl
  | cons e rest ih =>
    intro w
    simp only [List.foldl_cons]
    rw [ih]
    rfl

theorem stepMonth_withdrawalNet (params : FinancialParams)
    (E : Nat → Option (List SavingsEvent)) (sd sm : Nat) (d : ℚ) (st : SimState) (i : Nat) :
    (stepMonth params E sd sm d st i).2.withdrawalNet =
      netSpec E params.monthlyInflationRate (sm + i) := by
  simp only [stepMonth, netSpec]
  cases hE : E (sm + i) with
  | none => simp [hE]
  | some es =>
    simp only [hE]
    rw [foldl_processEvent_net]

/-- C5.  Every month record emitted by the segment simulator records as its
net withdrawal the sum over the events due that month of
`targetAmount × (1 + monthlyInflation) ^ monthIndex`, where the exponent is
the global month index of the record (cumulative from month 0 of the whole
simulation, not from the start of the current segment), recorded only when
positive.  Quantifying over every starting month index covers every segment
the orchestrator runs. -/
theorem runSimulationPeriod_withdrawalNet (b cb ncb : ℚ) (sd sm n : Nat) (d : ℚ)
    (params : FinancialParams) (E : Nat → Option (List SavingsEvent)) :
    ∀ rec ∈ (runSimulationPeriod b cb ncb sd sm n d params E).schedule,
      rec.withdrawalNet = netSpec E params.monthlyInflationRate rec.monthIndex := by
  have aux : ∀ (n : Nat) (st : SimState) (i : Nat),
      ∀ rec ∈ (runSimAux params E sd sm d st i n).2,
        rec.withdrawalNet = netSpec E params.monthlyInflationRate rec.monthIndex := by
    intro n
    induction n with
    | zero => intro st i rec hrec; simp [runSimAux] at hrec
    | succ k ih =>
      intro st i rec hrec
      simp only [runSimAux, List.mem_cons] at hrec
      rcases hrec with h | h
      · subst h
        exact stepMonth_withdrawalNet params E sd sm d st i
      · exact ih _ _ rec h
  exact aux n _ 0

/-! ## C7: the zero-tax identity -/

theorem foldl_processEvent_zero_tax (infl : ℚ) (m : Nat) :
    ∀ (es : List SavingsEvent) (w : WithdrawState),
      w.monthWithdrawalGross = w.monthWithdrawalNet →
      w.monthTaxPaid = 0 →
      (es.foldl (processEvent 0 infl m) w).monthWithdrawalGross =
        (es.foldl (processEvent 0 infl m) w).monthWithdrawalNet ∧
      (es.foldl (processEvent 0 infl m) w).monthTaxPaid = 0 := by
  intro es
  induction es with
  | nil => intro w h1 h2; exact ⟨h1, h2⟩
  | cons e rest ih =>
    intro w h1 h2
    simp only [List.foldl_cons]
    apply ih
    · simp only [processEvent, mul_zero, sub_zero, div_one]
      rw [h1]
    · simp only [processEvent, mul_zero, sub_zero, div_one]
      rw [h2]
      ring

/-- C7.  When the capital-gains tax rate is zero, every month record has its
gross withdrawal equal to its net withdrawal (the inflation-adjusted net
target total) and no tax line, whatever the profit ratio is. -/
theorem runSimulationPeriod_zero_tax (b cb ncb : ℚ) (sd sm n : Nat) (d : ℚ)
    (params : FinancialParams) (E : Nat → Option (List SavingsEvent))
    (htax : params.taxRate = 0) :
    ∀ rec ∈ (runSimulationPeriod b cb ncb sd sm n d params E).schedule,
      rec.withdrawalGross = rec.withdrawalNet ∧ rec.taxPaid = none := by
  have step : ∀ (st : SimState) (i : Nat),
      (stepMonth params E sd sm d st i).2.withdrawalGross =
        (stepMonth params E sd sm d st i).2.withdrawalNet ∧
      (stepMonth params E sd sm d st i).2.taxPaid = none := by
    intro st i
    simp only [stepMonth]
    cases hE : E (sm + i) with
    | none => simp [hE]
    | some es =>
      have h := foldl_processEvent_zero_tax params.monthlyInflationRate (sm + i) es
        { balance := (st.balance + d) * (1 + params.monthlyReturnRate)
          costBasis := (st.costBasis + d) * (1 + params.monthlyInflationRate)
          nominalCostBasis := st.nominalCostBasis + d
          failed := st.failed
          monthWithdrawalGross := 0
          monthWithdrawalNet := 0
          monthTaxPaid := 0
          monthRealGain := 0
          monthNominalGain := 0
          eventRef := none } rfl rfl
      rw [htax] at *
      simp only [hE]
      rw [h.1, h.2]
      simp
  have aux : ∀ (n : Nat) (st : SimState) (i : Nat),
      ∀ rec ∈ (runSimAux params E sd sm d st i n).2,
        rec.withdrawalGross = rec.withdrawalNet ∧ rec.taxPaid = none := by
    intro n
    induction n with
    | zero => intro st i rec hrec; simp [runSimAux] at hrec
    | succ k ih =>
      intro st i rec hrec
      simp only [runSimAux, List.mem_cons] at hrec
      rcases hrec with h | h
      · subst h; exact step st i
      · exact ih _ _ rec h
  exact aux n _ 0

/-- Helper: the `headI` of a nonempty list is a member. -/
theorem headI_mem_of_ne_nil {α : Type} [Inhabited α] {l : List α} (h : l ≠ []) :
    l.headI ∈ l := by
  cases l with
  | nil => exact absurd rfl h
  | cons a t => simp

theorem demo_schedule_ne_nil :
    (runSimulationPeriod 0 0 0 0 0 1 10 demoParams demoE).schedule ≠ [] := by
  apply List.ne_nil_of_length_pos
  show 0 < (runSimAux demoParams demoE 0 0 10 ⟨0, 0, 0, false⟩ 0 1).2.length
  rw [runSimAux_snd_length]
  norm_num

/-- Witness for C5 at a concrete one-month simulation containing one goal. -/
theorem runSimulationPeriod_withdrawalNet_witness :
    ((runSimulationPeriod 0 0 0 0 0 1 10 demoParams demoE).schedule.headI).withdrawalNet =
      netSpec demoE demoParams.monthlyInflationRate
        ((runSimulationPeriod 0 0 0 0 0 1 10 demoParams demoE).schedule.headI).monthIndex :=
  runSimulationPeriod_withdrawalNet 0 0 0 0 0 1 10 demoParams demoE _
    (headI_mem_of_ne_nil demo_schedule_ne_nil)

/-- Witness for C7 at a concrete one-month simulation with zero tax rate. -/
theorem runSimulationPeriod_zero_tax_witness :
    ((runSimulationPeriod 0 0 0 0 0 1 10 demoParams demoE).schedule.headI).withdrawalGross =
      ((runSimulationPeriod 0 0 0 0 0 1 10 demoParams demoE).schedule.headI).withdrawalNet ∧
    ((runSimulationPeriod 0 0 0 0 0 1 10 demoParams demoE).schedule.headI).taxPaid = none :=
  runSimulationPeriod_zero_tax 0 0 0 0 0 1 10 demoParams demoE rfl _
    (headI_mem_of_ne_nil demo_schedule_ne_nil)

/-! ## C2: the never-increase deposit policy -/

theorem pairwise_ge_of_const {l : List ℚ} {v : ℚ} (h : ∀ x ∈ l, x = v) :
    l.Pairwise (fun a b => b ≤ a) := by
  induction l with
  | nil => exact List.Pairwise.nil
  | cons a t ih =>
    constructor
    · intro b hb
      rw [h b (List.mem_cons_of_mem a hb), h a (List.mem_cons_self a t)]
    · exact ih fun x hx => h x (List.mem_cons_of_mem a hx)

theorem planStep_inv (params : FinancialParams) (se : List SavingsEvent)
    (st : PlanState) (m : Nat)
    (h1 : List.Sorted (fun a b => b ≤ a) (st.schedule.map (fun r => r.deposit)))
    (h2 : ∀ c, st.maxDepositConstraint = some c → ∀ r ∈ st.schedule, c ≤ r.deposit)
    (h3 : st.maxDepositConstraint = none → st.schedule = []) :
    List.Sorted (fun a b => b ≤ a) ((planStep params se st m).schedule.map (fun r => r.deposit)) ∧
    (∀ c, (planStep params se st m).maxDepositConstraint = some c →
      ∀ r ∈ (planStep params se st m).schedule, c ≤ r.deposit) ∧
    ((planStep params se st m).maxDepositConstraint = none →
      (planStep params se st m).schedule = []) := by
  simp only [planStep]
  rcases hc : st.maxDepositConstraint with _ | c
  · have hempty : st.schedule = [] := h3 hc
    simp only [hc, hempty, List.nil_append, List.map_nil]
    set A := solveRequiredDeposit st.balance st.costBasis st.nominalCostBasis
      (params.startDate + st.currentMonth) st.currentMonth
      (se.filter fun e => st.currentMonth ≤ e.monthOffset) params with hA
    refine ⟨?_, ?_, ?_⟩
    · apply pairwise_ge_of_const (v := A)
      intro x hx
      rcases List.mem_map.mp hx with ⟨r, hr, hrx⟩
      rw [← hrx]
      exact runSimAux_deposit _ _ _ _ _ _ _ _ r hr
    · intro c hcA r hr
      have hdep := runSimAux_deposit params _ _ st.currentMonth A _ _ _ r hr
      rw [hdep, (Option.some_inj.mp hcA)]
    · intro h; exact absurd h (by simp)
  · simp only [hc]
    set R := solveRequiredDeposit st.balance st.costBasis st.nominalCostBasis
      (params.startDate + st.currentMonth) st.currentMonth
      (se.filter fun e => st.currentMonth ≤ e.monthOffset) params with hR
    set A := if R > c then c else R with hAdef
    have hAc : A ≤ c := by
      rw [hAdef]
      split
      · exact le_refl c
      · rename_i hgt
        exact le_of_not_lt hgt
    refine ⟨?_, ?_, ?_⟩
    · rw [List.map_append]
      refine List.pairwise_append.mpr ⟨h1, ?_, ?_⟩
      · apply pairwise_ge_of_const (v := A)
        intro x hx
        rcases List.mem_map.mp hx with ⟨r, hr, hrx⟩
        rw [← hrx]
        exact runSimAux_deposit _ _ _ _ _ _ _ _ r hr
      · intro a ha b hb
        rcases List.mem_map.mp ha with ⟨ra, hra, hax⟩
        rcases List.mem_map.mp hb with ⟨rb, hrb, hbx⟩
        have hbA : b = A := by
          rw [← hbx]
          exact runSimAux_deposit _ _ _ _ _ _ _ _ rb hrb
        have haA : c ≤ a := by
          rw [← hax]
          exact h2 c hc ra hra
        calc b = A := hbA
          _ ≤ c := hAc
          _ ≤ a := haA
    · intro c2 hc2 r hr
      have hc2A : c2 = A := (Option.some_inj.mp hc2).symm
      rcases List.mem_append.mp hr with h | h
      · calc c2 = A := hc2A
          _ ≤ c := hAc
          _ ≤ r.deposit := h2 c hc r h
      · rw [hc2A, runSimAux_deposit _ _ _ _ _ _ _ _ r h]
    · intro h; exact absurd h (by simp)

/-- C2.  In the schedule produced by `calculateSavingsPlan` the per-month
deposits form a non-increasing sequence: for every pair of records (in
particular every adjacent pair and hence every pair of adjacent segments),
the later deposit is at most the earlier deposit, because each actual segment
deposit is the minimum of the solved deposit and the running ceiling, which
is then updated to that actual deposit. -/
theorem calculateSavingsPlan_deposits_nonincreasing (params : FinancialParams)
    (events : List SavingsEvent) :
    List.Sorted (fun a b => b ≤ a)
      ((calculateSavingsPlan params events).schedule.map (fun r => r.deposit)) := by
  unfold calculateSavingsPlan
  by_cases h : sortEvents events = []
  · simp [h]
  · simp only [if_neg h]
    have main : ∀ (ms : List Nat) (st : PlanState),
        List.Sorted (fun a b => b ≤ a) (st.schedule.map (fun r => r.deposit)) →
        (∀ c, st.maxDepositConstraint = some c → ∀ r ∈ st.schedule, c ≤ r.deposit) →
        (st.maxDepositConstraint = none → st.schedule = []) →
        List.Sorted (fun a b => b ≤ a)
          ((ms.foldl (planStep params (sortEvents events)) st).schedule.map (fun r => r.deposit)) := by
      intro ms
      induction ms with
      | nil => intro st p1 p2 p3; exact p1
      | cons m rest ih =>
        intro st p1 p2 p3
        simp only [List.foldl_cons]
        have hinv := planStep_inv params (sortEvents events) st m p1 p2 p3
        exact ih _ hinv.1 hinv.2.1 hinv.2.2
    exact main _ _ (by simp) (by simp) (by intro hh; rfl)

/-! ## C3: cost-basis versus balance -/

/-- Counterexample to C3 as stated.  With a zero monthly return rate (the
derivation of an annual return of 0% — certainly a nonnegative annual
return) and a positive monthly inflation rate, one depositing month with no
events leaves the real cost basis strictly above the balance: the balance is
10 while the inflation-indexed real cost basis is 20. -/
theorem costBasis_le_balance_counterexample :
    0 ≤ (⟨0, 0, 1, 0, 0⟩ : FinancialParams).monthlyReturnRate ∧
    ¬ ((runSimulationPeriod 0 0 0 0 0 1 10 ⟨0, 0, 1, 0, 0⟩ (fun _ => none)).finalCostBasis ≤
        (runSimulationPeriod 0 0 0 0 0 1 10 ⟨0, 0, 1, 0, 0⟩ (fun _ => none)).finalBalance) := by
  constructor
  · norm_num
  · norm_num [runSimulationPeriod, runSimAux, stepMonth]

/-- The per-event update in explicit form: there is a gross amount `g`
(namely `targetNetNominal / (1 - effectiveTaxRate)`) such that the balance
drops by `g` and both cost bases are scaled by `1 - g / preEventBalance`
when the pre-event balance is positive, and floored to 0 otherwise. -/
theorem processEvent_cases (t infl : ℚ) (m : Nat) (st : WithdrawState) (e : SavingsEvent) :
    ∃ g : ℚ,
      g = (e.targetAmount * (1 + infl) ^ m) /
        (1 - (if st.balance > 0 then max 0 (1 - st.costBasis / st.balance) else 0) * t) ∧
      (processEvent t infl m st e).balance = st.balance - g ∧
      (processEvent t infl m st e).costBasis =
        (if st.balance > 0 then st.costBasis * (1 - g / st.balance) else 0) ∧
      (processEvent t infl m st e).nominalCostBasis =
        (if st.balance > 0 then st.nominalCostBasis * (1 - g / st.balance) else 0) := by
  refine ⟨_, rfl, rfl, ?_, ?_⟩
  · show (if st.balance - _ + _ > 0 then _ else _) = _
    rw [sub_add_cancel]
  · show (if st.balance - _ + _ > 0 then _ else _) = _
    rw [sub_add_cancel]

theorem foldl_processEvent_balance_nonpos (t infl : ℚ) (m : Nat) :
    ∀ (es : List SavingsEvent) (w : WithdrawState),
      (∀ e ∈ es, 0 ≤ e.targetAmount) → 0 ≤ 1 + infl →
      w.balance ≤ 0 →
      (es.foldl (processEvent t infl m) w).balance ≤ w.balance := by
  intro es
  induction es with
  | nil => intro w _ _ _; exact le_refl _
  | cons e rest ih =>
    intro w htg hinfl hw
    simp only [List.foldl_cons]
    obtain ⟨g, hgdef, hbal, _, _⟩ := processEvent_cases t infl m w e
    have hif : (if w.balance > 0 then max 0 (1 - w.costBasis / w.balance) else 0) = 0 :=
      if_neg (not_lt.mpr hw)
    have hg : g = e.targetAmount * (1 + infl) ^ m := by
      rw [hgdef, hif]
      norm_num
    have hg0 : 0 ≤ g := by
      rw [hg]
      exact mul_nonneg (htg e (List.mem_cons_self e rest)) (pow_nonneg hinfl m)
    have hwe : (processEvent t infl m w e).balance ≤ w.balance := by
      rw [hbal]; linarith
    calc (rest.foldl (processEvent t infl m) (processEvent t infl m w e)).balance
        ≤ (processEvent t infl m w e).balance :=
          ih _ (fun x hx => htg x (List.mem_cons_of_mem e hx)) hinfl (le_trans hwe hw)
      _ ≤ w.balance := hwe

theorem foldl_processEvent_inv (t infl : ℚ) (m : Nat)
    (ht0 : 0 ≤ t) (ht1 : t < 1) (hinfl : 0 ≤ infl) :
    ∀ (es : List SavingsEvent) (w : WithdrawState),
      (∀ e ∈ es, 0 ≤ e.targetAmount) →
      0 ≤ w.costBasis → w.costBasis ≤ w.balance →
      0 ≤ w.nominalCostBasis → w.nominalCostBasis ≤ w.balance →
      0 ≤ (es.foldl (processEvent t infl m) w).balance →
      0 ≤ (es.foldl (processEvent t infl m) w).costBasis ∧
      (es.foldl (processEvent t infl m) w).costBasis ≤
        (es.foldl (processEvent t infl m) w).balance ∧
      0 ≤ (es.foldl (processEvent t infl m) w).nominalCostBasis ∧
      (es.foldl (processEvent t infl m) w).nominalCostBasis ≤
        (es.foldl (processEvent t infl m) w).balance := by
  intro es
  induction es with
  | nil => intro w _ h1 h2 h3 h4 _; exact ⟨h1, h2, h3, h4⟩
  | cons e rest ih =>
    intro w htg h1 h2 h3 h4 hfin
    simp only [List.foldl_cons] at hfin ⊢
    obtain ⟨g, hgdef, hbal, hcb, hncb⟩ := processEvent_cases t infl m w e
    have htarget : 0 ≤ e.targetAmount := htg e (List.mem_cons_self e rest)
    have hone : (0:ℚ) ≤ 1 + infl := by linarith
    have hfactor : (0:ℚ) ≤ (1 + infl) ^ m := pow_nonneg hone m
    have htnn : 0 ≤ e.targetAmount * (1 + infl) ^ m := mul_nonneg htarget hfactor
    have htgrest : ∀ x ∈ rest, 0 ≤ x.targetAmount :=
      fun x hx => htg x (List.mem_cons_of_mem e hx)
    have hwbal : 0 ≤ w.balance := le_trans h1 h2
    rcases lt_or_eq_of_le hwbal with hpos | hzero
    · have hratio0 : (0:ℚ) ≤ max 0 (1 - w.costBasis / w.balance) := le_max_left _ _
      have hratio1 : max 0 (1 - w.costBasis / w.balance) ≤ 1 := by
        apply max_le
        · norm_num
        · have : 0 ≤ w.costBasis / w.balance := div_nonneg h1 (le_of_lt hpos)
          linarith
      have heff1 : max 0 (1 - w.costBasis / w.balance) * t < 1 := by
        calc max 0 (1 - w.costBasis / w.balance) * t
            ≤ 1 * t := mul_le_mul_of_nonneg_right hratio1 ht0
          _ = t := one_mul t
          _ < 1 := ht1
      have hif : (if w.balance > 0 then max 0 (1 - w.costBasis / w.balance) else 0) =
          max 0 (1 - w.costBasis / w.balance) := if_pos hpos
      have hg0 : 0 ≤ g := by
        rw [hgdef, hif]
        exact div_nonneg htnn (by linarith)
      have hpostbal : 0 ≤ (processEvent t infl m w e).balance := by
        by_contra hneg
        push_neg at hneg
        have habs := foldl_processEvent_balance_nonpos t infl m rest
          (processEvent t infl m w e) htgrest hone (le_of_lt hneg)
        linarith
      have hgle : g ≤ w.balance := by
        rw [hbal] at hpostbal
        linarith
      have hwr0 : 0 ≤ 1 - g / w.balance := by
        have : g / w.balance ≤ 1 := (div_le_one hpos).mpr hgle
        linarith
      have hbalscale : w.balance * (1 - g / w.balance) = w.balance - g := by
        field_simp
      have hnew1 : 0 ≤ (processEvent t infl m w e).costBasis := by
        rw [hcb, if_pos hpos]
        exact mul_nonneg h1 hwr0
      have hnew2 : (processEvent t infl m w e).costBasis ≤ (processEvent t infl m w e).balance := by
        rw [hcb, if_pos hpos, hbal]
        have := mul_le_mul_of_nonneg_right h2 hwr0
        linarith [hbalscale]
      have hnew3 : 0 ≤ (processEvent t infl m w e).nominalCostBasis := by
        rw [hncb, if_pos hpos]
        exact mul_nonneg h3 hwr0
      have hnew4 : (processEvent t infl m w e).nominalCostBasis ≤ (processEvent t infl m w e).balance := by
        rw [hncb, if_pos hpos, hbal]
        have := mul_le_mul_of_nonneg_right h4 hwr0
        linarith [hbalscale]
      exact ih _ htgrest hnew1 hnew2 hnew3 hnew4 hfin
    · have hbal0 : w.balance = 0 := hzero.symm
      have hif : (if w.balance > 0 then max 0 (1 - w.costBasis / w.balance) else 0) = 0 :=
        if_neg (by rw [hbal0]; norm_num)
      have hg : g = e.targetAmount * (1 + infl) ^ m := by
        rw [hgdef, hif]
        norm_num
      have htz : e.targetAmount * (1 + infl) ^ m = 0 := by
        by_contra hne
        have hpos2 : 0 < e.targetAmount * (1 + infl) ^ m := lt_of_le_of_ne htnn (Ne.symm hne)
        have hneg : (processEvent t infl m w e).balance < 0 := by
          rw [hbal, hbal0, hg]
          linarith
        have habs := foldl_processEvent_balance_nonpos t infl m rest
          (processEvent t infl m w e) htgrest hone (le_of_lt hneg)
        linarith
      have hg0 : g = 0 := by rw [hg, htz]
      have hnotpos : ¬ (w.balance > 0) := by rw [hbal0]; norm_num
      have hnew1 : (processEvent t infl m w e).costBasis = 0 := by
        rw [hcb, if_neg hnotpos]
      have hnew3 : (processEvent t infl m w e).nominalCostBasis = 0 := by
        rw [hncb, if_neg hnotpos]
      have hnewbal : (processEvent t infl m w e).balance = 0 := by
        rw [hbal, hbal0, hg0]
        ring
      exact ih _ htgrest (by rw [hnew1]) (by rw [hnew1, hnewbal])
        (by rw [hnew3]) (by rw [hnew3, hnewbal]) hfin

theorem stepMonth_inv (params : FinancialParams) (E : Nat → Option (List SavingsEvent))
    (sd sm : Nat) (d : ℚ) (st : SimState) (i : Nat)
    (hinfl0 : 0 ≤ params.monthlyInflationRate)
    (hinflret : params.monthlyInflationRate ≤ params.monthlyReturnRate)
    (ht0 : 0 ≤ params.taxRate) (ht1 : params.taxRate < 1)
    (hd : 0 ≤ d)
    (htargets : ∀ k es, E k = some es → ∀ e ∈ es, 0 ≤ e.targetAmount)
    (h1 : 0 ≤ st.costBasis) (h2 : st.costBasis ≤ st.balance)
    (h3 : 0 ≤ st.nominalCostBasis) (h4 : st.nominalCostBasis ≤ st.balance)
    (hend : 0 ≤ (stepMonth params E sd sm d st i).1.balance) :
    0 ≤ (stepMonth params E sd sm d st i).1.costBasis ∧
    (stepMonth params E sd sm d st i).1.costBasis ≤ (stepMonth params E sd sm d st i).1.balance ∧
    0 ≤ (stepMonth params E sd sm d st i).1.nominalCostBasis ∧
    (stepMonth params E sd sm d st i).1.nominalCostBasis ≤ (stepMonth params E sd sm d st i).1.balance := by
  have hbal0 : 0 ≤ st.balance := le_trans h1 h2
  have hcd : 0 ≤ st.costBasis + d := by linarith
  have hbd : 0 ≤ st.balance + d := by linarith
  have hri : (1:ℚ) ≤ 1 + params.monthlyReturnRate := by linarith
  have hii : (0:ℚ) ≤ 1 + params.monthlyInflationRate := by linarith
  have hw1 : 0 ≤ (st.costBasis + d) * (1 + params.monthlyInflationRate) :=
    mul_nonneg hcd hii
  have hw2 : (st.costBasis + d) * (1 + params.monthlyInflationRate) ≤
      (st.balance + d) * (1 + params.monthlyReturnRate) := by
    calc (st.costBasis + d) * (1 + params.monthlyInflationRate)
        ≤ (st.costBasis + d) * (1 + params.monthlyReturnRate) :=
          mul_le_mul_of_nonneg_left (by linarith) hcd
      _ ≤ (st.balance + d) * (1 + params.monthlyReturnRate) :=
          mul_le_mul_of_nonneg_right (by linarith) (by linarith)
  have hw3 : 0 ≤ st.nominalCostBasis + d := by linarith
  have hw4 : st.nominalCostBasis + d ≤ (st.balance + d) * (1 + params.monthlyReturnRate) := by
    calc st.nominalCostBasis + d ≤ st.balance + d := by linarith
      _ ≤ (st.balance + d) * (1 + params.monthlyReturnRate) := le_mul_of_one_le_right hbd hri
  cases hE : E (sm + i) with
  | none =>
    simp only [stepMonth, hE] at hend ⊢
    exact ⟨hw1, by linarith [hw2], hw3, by linarith [hw4]⟩
  | some es =>
    simp only [stepMonth, hE] at hend ⊢
    exact foldl_processEvent_inv params.taxRate params.monthlyInflationRate (sm + i)
      ht0 ht1 hinfl0 es _ (htargets (sm + i) es hE) hw1 hw2 hw3 hw4 hend

theorem runSimAux_inv (params : FinancialParams) (E : Nat → Option (List SavingsEvent))
    (sd sm : Nat) (d : ℚ)
    (hinfl0 : 0 ≤ params.monthlyInflationRate)
    (hinflret : params.monthlyInflationRate ≤ params.monthlyReturnRate)
    (ht0 : 0 ≤ params.taxRate) (ht1 : params.taxRate < 1)
    (hd : 0 ≤ d)
    (htargets : ∀ k es, E k = some es → ∀ e ∈ es, 0 ≤ e.targetAmount) :
    ∀ (n : Nat) (st : SimState) (i : Nat),
      0 ≤ st.costBasis → st.costBasis ≤ st.balance →
      0 ≤ st.nominalCostBasis → st.nominalCostBasis ≤ st.balance →
      (∀ rec ∈ (runSimAux params E sd sm d st i n).2, 0 ≤ rec.balanceEnd) →
      (0 ≤ (runSimAux params E sd sm d st i n).1.costBasis ∧
       (runSimAux params E sd sm d st i n).1.costBasis ≤ (runSimAux params E sd sm d st i n).1.balance ∧
       0 ≤ (runSimAux params E sd sm d st i n).1.nominalCostBasis ∧
       (runSimAux params E sd sm d st i n).1.nominalCostBasis ≤ (runSimAux params E sd sm d st i n).1.balance) ∧
      ∀ rec ∈ (runSimAux params E sd sm d st i n).2,
        0 ≤ rec.costBasis ∧ rec.costBasis ≤ rec.balanceEnd := by
  intro n
  induction n with
  | zero =>
    intro st i p1 p2 p3 p4 _
    refine ⟨⟨p1, p2, p3, p4⟩, ?_⟩
    intro rec hrec
    simp [runSimAux] at hrec
  | succ k ih =>
    intro st i p1 p2 p3 p4 hrecs
    have hhead : 0 ≤ (stepMonth params E sd sm d st i).2.balanceEnd := by
      apply hrecs
      simp only [runSimAux, List.mem_cons]
      exact Or.inl trivial
    have hend : 0 ≤ (stepMonth params E sd sm d st i).1.balance := hhead
    have hstep := stepMonth_inv params E sd sm d st i hinfl0 hinflret ht0 ht1 hd htargets
      p1 p2 p3 p4 hend
    have htail : ∀ rec ∈ (runSimAux params E sd sm d (stepMonth params E sd sm d st i).1 (i + 1) k).2,
        0 ≤ rec.balanceEnd := by
      intro rec hrec
      apply hrecs
      simp only [runSimAux, List.mem_cons]
      exact Or.inr hrec
    have hih := ih (stepMonth params E sd sm d st i).1 (i + 1)
      hstep.1 hstep.2.1 hstep.2.2.1 hstep.2.2.2 htail
    refine ⟨hih.1, ?_⟩
    intro rec hrec
    simp only [runSimAux, List.mem_cons] at hrec
    rcases hrec with h | h
    · subst h
      exact ⟨hstep.1, hstep.2.1⟩
    · exact hih.2 rec h

/-- C3, amended.  The claim as stated fails (see
`costBasis_le_balance_counterexample`): with nonnegative growth alone the
inflation-indexed real cost basis can exceed the balance as soon as the
monthly inflation rate exceeds the monthly return rate.  Amended statement:
throughout any simulation in which the monthly inflation rate lies between 0
and the monthly return rate, the tax rate lies in `[0, 1)`, the deposit and
all event targets are nonnegative, both cost bases start inside
`[0, starting balance]`, and no month ends with a negative balance (so no
withdrawal overdraws the account), both cost bases remain within
`[0, balance]` after every month step — for the real cost basis this holds
at every emitted month record, and for both cost bases at the final state of
every such run (every intermediate state is the final state of the run of a
shorter duration).  Moreover, on every withdrawal both cost bases are reduced
proportionally: they are scaled by `1 - gross / preEventBalance` computed
against the pre-event balance, and floored to 0 when that balance is not
positive. -/
theorem runSimulationPeriod_costBasis_invariant (b cb ncb : ℚ) (sd sm n : Nat) (d : ℚ)
    (params : FinancialParams) (E : Nat → Option (List SavingsEvent))
    (hinfl0 : 0 ≤ params.monthlyInflationRate)
    (hinflret : params.monthlyInflationRate ≤ params.monthlyReturnRate)
    (ht0 : 0 ≤ params.taxRate) (ht1 : params.taxRate < 1)
    (hd : 0 ≤ d)
    (htargets : ∀ k es, E k = some es → ∀ e ∈ es, 0 ≤ e.targetAmount)
    (hcb1 : 0 ≤ cb) (hcb2 : cb ≤ b) (hncb1 : 0 ≤ ncb) (hncb2 : ncb ≤ b)
    (hnoneg : ∀ rec ∈ (runSimulationPeriod b cb ncb sd sm n d params E).schedule,
      0 ≤ rec.balanceEnd) :
    (0 ≤ (runSimulationPeriod b cb ncb sd sm n d params E).finalCostBasis ∧
     (runSimulationPeriod b cb ncb sd sm n d params E).finalCostBasis ≤
       (runSimulationPeriod b cb ncb sd sm n d params E).finalBalance ∧
     0 ≤ (runSimulationPeriod b cb ncb sd sm n d params E).finalNominalCostBasis ∧
     (runSimulationPeriod b cb ncb sd sm n d params E).finalNominalCostBasis ≤
       (runSimulationPeriod b cb ncb sd sm n d params E).finalBalance) ∧
    (∀ rec ∈ (runSimulationPeriod b cb ncb sd sm n d params E).schedule,
      0 ≤ rec.costBasis ∧ rec.costBasis ≤ rec.balanceEnd) ∧
    (∀ (t infl : ℚ) (m : Nat) (w : WithdrawState) (e : SavingsEvent),
      ∃ g : ℚ,
        g = (e.targetAmount * (1 + infl) ^ m) /
          (1 - (if w.balance > 0 then max 0 (1 - w.costBasis / w.balance) else 0) * t) ∧
        (processEvent t infl m w e).balance = w.balance - g ∧
        (processEvent t infl m w e).costBasis =
          (if w.balance > 0 then w.costBasis * (1 - g / w.balance) else 0) ∧
        (processEvent t infl m w e).nominalCostBasis =
          (if w.balance > 0 then w.nominalCostBasis * (1 - g / w.balance) else 0)) := by
  have h := runSimAux_inv params E sd sm d hinfl0 hinflret ht0 ht1 hd htargets n
    ⟨b, cb, ncb, false⟩ 0 hcb1 hcb2 hncb1 hncb2 hnoneg
  exact ⟨⟨h.1.1, h.1.2.1, h.1.2.2.1, h.1.2.2.2⟩, h.2,
    fun t infl m w e => processEvent_cases t infl m w e⟩

/-- Witness for the amended C3 at a concrete one-month depositing run with
zero rates: every hypothesis is discharged at the concrete input. -/
theorem runSimulationPeriod_costBasis_invariant_witness :
    0 ≤ (runSimulationPeriod 0 0 0 0 0 1 10 demoParams (fun _ => none)).finalCostBasis ∧
    (runSimulationPeriod 0 0 0 0 0 1 10 demoParams (fun _ => none)).finalCostBasis ≤
      (runSimulationPeriod 0 0 0 0 0 1 10 demoParams (fun _ => none)).finalBalance :=
  ⟨(runSimulationPeriod_costBasis_invariant 0 0 0 0 0 1 10 demoParams (fun _ => none)
      (by norm_num [demoParams]) (by norm_num [demoParams]) (by norm_num [demoParams])
      (by norm_num [demoParams]) (by norm_num)
      (fun k es h => by exact absurd h (by simp))
      (by norm_num) (by norm_num) (by norm_num) (by norm_num)
      (by
        intro rec hrec
        have : rec.balanceEnd = 10 := by
          have hs : (runSimulationPeriod 0 0 0 0 0 1 10 demoParams (fun _ => none)).schedule =
              [(stepMonth demoParams (fun _ => none) 0 0 10 ⟨0, 0, 0, false⟩ 0).2] := rfl
          rw [hs] at hrec
          rcases List.mem_singleton.mp hrec with h
          rw [h]
          norm_num [stepMonth, demoParams]
        rw [this]
        norm_num)).1.1,
   (runSimulationPeriod_costBasis_invariant 0 0 0 0 0 1 10 demoParams (fun _ => none)
      (by norm_num [demoParams]) (by norm_num [demoParams]) (by norm_num [demoParams])
      (by norm_num [demoParams]) (by norm_num)
      (fun k es h => by exact absurd h (by simp))
      (by norm_num) (by norm_num) (by norm_num) (by norm_num)
      (by
        intro rec hrec
        have : rec.balanceEnd = 10 := by
          have hs : (runSimulationPeriod 0 0 0 0 0 1 10 demoParams (fun _ => none)).schedule =
              [(stepMonth demoParams (fun _ => none) 0 0 10 ⟨0, 0, 0, false⟩ 0).2] := rfl
          rw [hs] at hrec
          rcases List.mem_singleton.mp hrec with h
          rw [h]
          norm_num [stepMonth, demoParams]
        rw [this]
        norm_num)).1.2.1⟩

/-! ## C9: shape of the full schedule -/

theorem foldl_max_base (l : List Nat) : ∀ a : Nat, a ≤ l.foldl max a := by
  induction l with
  | nil => intro a; exact le_refl a
  | cons x t ih =>
    intro a
    calc a ≤ max a x := le_max_left a x
      _ ≤ t.foldl max (max a x) := ih (max a x)

theorem le_foldl_max (l : List Nat) : ∀ (a x : Nat), x ∈ l → x ≤ l.foldl max a := by
  induction l with
  | nil => intro a x hx; exact absurd hx (List.not_mem_nil x)
  | cons y t ih =>
    intro a x hx
    rcases List.mem_cons.mp hx with h | h
    · subst h
      calc x ≤ max a x := le_max_right a x
        _ ≤ t.foldl max (max a x) := foldl_max_base t (max a x)
    · exact ih (max a y) x h

theorem foldl_max_le (l : List Nat) : ∀ (a b : Nat), a ≤ b → (∀ x ∈ l, x ≤ b) →
    l.foldl max a ≤ b := by
  induction l with
  | nil => intro a b hab _; exact hab
  | cons y t ih =>
    intro a b hab hall
    apply ih
    · exact max_le hab (hall y (List.mem_cons_self y t))
    · intro x hx
      exact hall x (List.mem_cons_of_mem y hx)

theorem getLastD_mem_of_ne_nil : ∀ (l : List Nat), l ≠ [] → ∀ d : Nat, l.getLastD d ∈ l := by
  intro l
  induction l with
  | nil => intro h; exact absurd rfl h
  | cons x t ih =>
    intro _ d
    cases t with
    | nil => simp
    | cons y u =>
      rw [List.getLastD_cons]
      exact List.mem_cons_of_mem x (ih (by simp) x)

theorem foldl_succ_ne_nil : ∀ (ms : List Nat), ms ≠ [] →
    ∀ c : Nat, ms.foldl (fun _ m => m + 1) c = ms.getLastD 0 + 1 := by
  intro ms
  induction ms with
  | nil => intro h; exact absurd rfl h
  | cons m rest ih =>
    intro _ c
    cases rest with
    | nil => rfl
    | cons y u =>
      rw [List.foldl_cons]
      rw [ih (by simp) (m + 1)]
      rw [List.getLastD_cons, List.getLastD_cons, List.getLastD_cons]

theorem sorted_le_getLastD : ∀ (l : List Nat), List.Sorted (· ≤ ·) l →
    ∀ x ∈ l, x ≤ l.getLastD 0 := by
  intro l
  induction l with
  | nil => intro _ x hx; exact absurd hx (List.not_mem_nil x)
  | cons m rest ih =>
    intro hs x hx
    cases rest with
    | nil =>
      rcases List.mem_singleton.mp hx with h
      subst h
      simp
    | cons y u =>
      rw [List.getLastD_cons]
      have hs2 : List.Sorted (· ≤ ·) (y :: u) := hs.of_cons
      have hrel : ∀ z ∈ y :: u, m ≤ z := List.rel_of_sorted_cons hs
      have hdefault : (y :: u).getLastD m = (y :: u).getLastD 0 := by
        rw [List.getLastD_cons, List.getLastD_cons]
      rcases List.mem_cons.mp hx with h | h
      · subst h
        rw [hdefault]
        exact hrel _ (getLastD_mem_of_ne_nil (y :: u) (by simp) 0)
      · rw [hdefault]
        exact ih hs2 x h

theorem planStep_schedule_map (params : FinancialParams) (se : List SavingsEvent)
    (st : PlanState) (m : Nat) :
    (planStep params se st m).schedule.map (fun r => r.monthIndex) =
      st.schedule.map (fun r => r.monthIndex) ++
        List.range' st.currentMonth (m + 1 - st.currentMonth) := by
  show (st.schedule ++ _).map _ = _
  rw [List.map_append]
  congr 1
  simpa using runSimAux_map_monthIndex params _ _ st.currentMonth _ (m + 1 - st.currentMonth) _ 0

theorem planFold_range (params : FinancialParams) (se : List SavingsEvent) :
    ∀ (ms : List Nat) (st : PlanState), List.Sorted (· < ·) ms →
      (∀ m ∈ ms, st.currentMonth ≤ m) →
      st.schedule.map (fun r => r.monthIndex) = List.range st.currentMonth →
      ((ms.foldl (planStep params se) st).schedule.map (fun r => r.monthIndex) =
        List.range ((ms.foldl (planStep params se) st).currentMonth)) ∧
      (ms.foldl (planStep params se) st).currentMonth =
        ms.foldl (fun _ m => m + 1) st.currentMonth := by
  intro ms
  induction ms with
  | nil => intro st _ _ hmap; exact ⟨hmap, rfl⟩
  | cons m rest ih =>
    intro st hsort hge hmap
    simp only [List.foldl_cons]
    have hcur : st.currentMonth ≤ m := hge m (List.mem_cons_self m rest)
    have hnew_map : (planStep params se st m).schedule.map (fun r => r.monthIndex) =
        List.range (planStep params se st m).currentMonth := by
      rw [planStep_schedule_map, hmap]
      show _ = List.range (m + 1)
      have key := List.range'_append 0 st.currentMonth (m + 1 - st.currentMonth) 1
      simp only [Nat.zero_add, Nat.one_mul] at key
      rw [List.range_eq_range', List.range_eq_range', key]
      congr 1
      omega
    have hrest_sorted : List.Sorted (· < ·) rest := hsort.of_cons
    have hrest_ge : ∀ x ∈ rest, (planStep params se st m).currentMonth ≤ x := by
      intro x hx
      show m + 1 ≤ x
      exact Nat.succ_le_of_lt (List.rel_of_sorted_cons hsort x hx)
    have hres := ih (planStep params se st m) hrest_sorted hrest_ge hnew_map
    exact ⟨hres.1, hres.2⟩

/-- C9.  For a nonempty event list with `Nat` month offsets, the full
schedule covers exactly the months 0 through the last (largest) event month:
its month indices are `0, 1, …, lastEventMonth`, its length is
`lastEventMonth + 1`, and the record at position `i` carries month index
`i`. -/
theorem calculateSavingsPlan_schedule_months (params : FinancialParams)
    (events : List SavingsEvent) (hne : events ≠ []) :
    ((calculateSavingsPlan params events).schedule.map (fun r => r.monthIndex) =
      List.range (lastEventMonth events + 1)) ∧
    (calculateSavingsPlan params events).schedule.length = lastEventMonth events + 1 ∧
    ∀ (i : Nat) (hi : i < (calculateSavingsPlan params events).schedule.length),
      ((calculateSavingsPlan params events).schedule.get ⟨i, hi⟩).monthIndex = i := by
  have hperm := List.perm_insertionSort
    (fun a b : SavingsEvent => a.monthOffset ≤ b.monthOffset) events
  have hsene : sortEvents events ≠ [] := by
    intro h
    apply hne
    have h3 := hperm
    rw [sortEvents] at h
    rw [h] at h3
    exact (h3.symm).eq_nil
  have hsched : (calculateSavingsPlan params events).schedule =
      (((sortEvents events).map (fun e => e.monthOffset)).dedup.foldl
        (planStep params (sortEvents events))
        ⟨params.initialCapital, params.initialCapital, params.initialCapital, 0, none, []⟩).schedule := by
    unfold calculateSavingsPlan
    rw [if_neg hsene]
  have hsortse : List.Sorted (fun a b : SavingsEvent => a.monthOffset ≤ b.monthOffset)
      (sortEvents events) := List.sorted_insertionSort _ events
  have hsortA : List.Sorted (· ≤ ·) ((sortEvents events).map (fun e => e.monthOffset)) :=
    List.pairwise_map.mpr hsortse
  have hsortms_le : List.Sorted (· ≤ ·)
      ((sortEvents events).map (fun e => e.monthOffset)).dedup :=
    List.Pairwise.sublist (List.dedup_sublist _) hsortA
  have hsortms : List.Sorted (· < ·)
      ((sortEvents events).map (fun e => e.monthOffset)).dedup :=
    hsortms_le.lt_of_le (List.nodup_dedup _)
  have hAne : (sortEvents events).map (fun e => e.monthOffset) ≠ [] := by
    intro h
    apply hsene
    have := congrArg List.length h
    simp only [List.length_map, List.length_nil] at this
    exact List.eq_nil_of_length_eq_zero this
  have hmsne : ((sortEvents events).map (fun e => e.monthOffset)).dedup ≠ [] := by
    obtain ⟨x, hx⟩ := List.exists_mem_of_ne_nil _ hAne
    exact List.ne_nil_of_mem (List.mem_dedup.mpr hx)
  have hfold := planFold_range params (sortEvents events)
    ((sortEvents events).map (fun e => e.monthOffset)).dedup
    ⟨params.initialCapital, params.initialCapital, params.initialCapital, 0, none, []⟩
    hsortms (fun m _ => Nat.zero_le m) rfl
  have hmaxE : lastEventMonth events =
      (events.map (fun e => e.monthOffset)).foldl max 0 := by
    rw [List.foldl_map]
    rfl
  have hpermA : ((sortEvents events).map (fun e => e.monthOffset)).Perm
      (events.map (fun e => e.monthOffset)) := hperm.map _
  have hle1 : ((sortEvents events).map (fun e => e.monthOffset)).dedup.getLastD 0 ≤
      lastEventMonth events := by
    have hmem := getLastD_mem_of_ne_nil _ hmsne 0
    have hmemA := List.mem_dedup.mp hmem
    have hmemE := hpermA.mem_iff.mp hmemA
    rw [hmaxE]
    exact le_foldl_max _ 0 _ hmemE
  have hle2 : lastEventMonth events ≤
      ((sortEvents events).map (fun e => e.monthOffset)).dedup.getLastD 0 := by
    rw [hmaxE]
    apply foldl_max_le
    · exact Nat.zero_le _
    · intro x hx
      have hxA := hpermA.mem_iff.mpr hx
      have hxms := List.mem_dedup.mpr hxA
      exact sorted_le_getLastD _ hsortms_le x hxms
  have hlast : ((sortEvents events).map (fun e => e.monthOffset)).dedup.getLastD 0 =
      lastEventMonth events := le_antisymm hle1 hle2
  have hcur : (((sortEvents events).map (fun e => e.monthOffset)).dedup.foldl
      (planStep params (sortEvents events))
      ⟨params.initialCapital, params.initialCapital, params.initialCapital, 0, none, []⟩).currentMonth =
      lastEventMonth events + 1 := by
    rw [hfold.2, foldl_succ_ne_nil _ hmsne 0, hlast]
  have hmain : (calculateSavingsPlan params events).schedule.map (fun r => r.monthIndex) =
      List.range (lastEventMonth events + 1) := by
    rw [hsched, hfold.1, hcur]
  refine ⟨hmain, ?_, ?_⟩
  · have := congrArg List.length hmain
    simpa using this
  · intro i hi
    have hi2 : i < ((calculateSavingsPlan params events).schedule.map
        (fun r => r.monthIndex)).length := by
      simpa using hi
    rw [List.get_eq_getElem]
    have h1 : ((calculateSavingsPlan params events).schedule.map (fun r => r.monthIndex))[i] =
        ((calculateSavingsPlan params events).schedule[i]).monthIndex :=
      List.getElem_map _
    rw [← h1]
    have h2 := List.getElem_of_eq hmain hi2
    rw [h2]
    exact List.getElem_range i _

/-- Witness for C9 at a concrete single-goal plan. -/
theorem calculateSavingsPlan_schedule_months_witness :
    ((calculateSavingsPlan demoParams [demoEvent]).schedule.map (fun r => r.monthIndex) =
      List.range (lastEventMonth [demoEvent] + 1)) ∧
    (calculateSavingsPlan demoParams [demoEvent]).schedule.length =
      lastEventMonth [demoEvent] + 1 :=
  ⟨(calculateSavingsPlan_schedule_months demoParams [demoEvent] (by simp)).1,
   (calculateSavingsPlan_schedule_months demoParams [demoEvent] (by simp)).2.1⟩

/-! ## C1: the deposit solver -/

theorem solveSearch_succ (f : ℚ → Bool) (n : Nat) (s : ℚ × ℚ × ℚ) :
    solveSearch f (n + 1) s = solveSearch f n (searchStep f s) := rfl

theorem solveSearch_width (f : ℚ → Bool) :
    ∀ (n : Nat) (l h r : ℚ),
      (solveSearch f n (l, h, r)).2.1 - (solveSearch f n (l, h, r)).1 = (h - l) / 2 ^ n := by
  intro n
  induction n with
  | zero =>
    intro l h r
    rw [pow_zero, div_one]
    rfl
  | succ k ih =>
    intro l h r
    rw [solveSearch_succ]
    unfold searchStep
    by_cases hf : f ((l + h) / 2) = true
    · rw [if_pos hf]
      rw [ih ((l + h) / 2) h r]
      rw [pow_succ]
      field_simp
      ring
    · rw [if_neg hf]
      rw [ih l ((l + h) / 2) ((l + h) / 2)]
      rw [pow_succ]
      field_simp
      ring

theorem solveSearch_result_high (f : ℚ → Bool) :
    ∀ (n : Nat) (s : ℚ × ℚ × ℚ), s.2.2 = s.2.1 →
      (solveSearch f n s).2.2 = (solveSearch f n s).2.1 := by
  intro n
  induction n with
  | zero => intro s h; exact h
  | succ k ih =>
    intro s h
    rw [solveSearch_succ]
    apply ih
    unfold searchStep
    by_cases hf : f ((s.1 + s.2.1) / 2) = true
    · rw [if_pos hf]
      exact h
    · rw [if_neg hf]

theorem solveSearch_inv (f : ℚ → Bool) (c : ℚ) :
    ∀ (n : Nat) (l h r : ℚ),
      0 ≤ l → l ≤ h → h ≤ c →
      (f l = true ∨ l = 0) → (f h = false ∨ h = c) →
      0 ≤ (solveSearch f n (l, h, r)).1 ∧
      (solveSearch f n (l, h, r)).1 ≤ (solveSearch f n (l, h, r)).2.1 ∧
      (solveSearch f n (l, h, r)).2.1 ≤ c ∧
      (f (solveSearch f n (l, h, r)).1 = true ∨ (solveSearch f n (l, h, r)).1 = 0) ∧
      (f (solveSearch f n (l, h, r)).2.1 = false ∨ (solveSearch f n (l, h, r)).2.1 = c) := by
  intro n
  induction n with
  | zero =>
    intro l h r h0 hlh hhc hlow hhigh
    exact ⟨h0, hlh, hhc, hlow, hhigh⟩
  | succ k ih =>
    intro l h r h0 hlh hhc hlow hhigh
    rw [solveSearch_succ]
    unfold searchStep
    by_cases hf : f ((l + h) / 2) = true
    · rw [if_pos hf]
      exact ih ((l + h) / 2) h r (by linarith) (by linarith) hhc (Or.inl hf) hhigh
    · rw [if_neg hf]
      exact ih l ((l + h) / 2) ((l + h) / 2) h0 (by linarith) (by linarith) hlow
        (Or.inl (eq_false_of_ne_true hf))

/-- At the demonstration input (all rates zero, one goal of 11 at month 0,
empty starting state) the solver failure test is exactly `deposit < 10`:
the month-0 balance after a deposit `d` is `d`, the gross withdrawal is 11,
and the run fails when `d - 11 < -1` or when `d ≤ 0` (withdrawal demanded
from an empty account). -/
theorem demo_solverFailAt (d : ℚ) :
    solverFailAt 0 0 0 0 0 [demoEvent] demoParams d = decide (d < 10) := by
  unfold solverFailAt runSimulationPeriod lastEventMonth
  norm_num [runSimAux, stepMonth, processEvent, buildPeriodEvents, demoEvent, demoParams]
  rcases lt_or_le d 10 with h | h
  · have h1 : d - 11 < -1 := by linarith
    simp [h1, h]
  · have h1 : ¬(d - 11 < -1) := by linarith
    have h2 : ¬(d ≤ 0) := by linarith
    have h3 : ¬(d < 10) := not_lt.mpr h
    simp [h1, h2, h3]

/-- Counterexample to C1 as stated: at the demonstration input the smallest
deposit whose simulation does not fail is 10.5, and 10 — itself a multiple
of 10 — already does not fail (ending balance exactly at the -1 tolerance),
yet the solver returns 20, because the 20-iteration search lands at
`11 × 1000000/2^20 ≈ 10.49` which rounds up past 10.  So the returned value
is neither the minimal non-failing deposit nor its round-up. -/
theorem solveRequiredDeposit_minimality_counterexample :
    solveRequiredDeposit 0 0 0 0 0 [demoEvent] demoParams = 20 ∧
    solverFailAt 0 0 0 0 0 [demoEvent] demoParams 10 = false ∧
    (10:ℚ) < 20 := by
  refine ⟨?_, ?_, by norm_num⟩
  · unfold solveRequiredDeposit
    rw [if_neg (by simp : ¬([demoEvent] = []))]
    have hfun : solverFailAt 0 0 0 0 0 [demoEvent] demoParams = fun x => decide (x < 10) :=
      funext demo_solverFailAt
    rw [hfun]
    norm_num [solveSearch, searchStep]
    have hc : (⌈(34375:ℚ)/32768⌉ : ℤ) = 2 := by
      rw [Int.ceil_eq_iff]
      constructor
      · norm_num
      · norm_num
    rw [hc]
    norm_num
  · rw [demo_solverFailAt]
    norm_num

/-- C1, amended.  The solver does not return the exact minimal non-failing
deposit (see `solveRequiredDeposit_minimality_counterexample`); what holds is
minimality up to the binary-search resolution plus the rounding step.  For a
nonempty goal list, provided the failure of the lookahead simulation is
downward closed in the deposit (smaller deposits fail whenever larger ones
do, which is the regime the binary search presumes), the returned value is a
multiple of 10 inside `[0, 1000000]`; it is itself a non-failing deposit
whenever the cap 1000000 is non-failing; and it exceeds no non-failing
deposit by `10 + 1000000/2^20` or more — 20 bisection iterations of the
interval `[0, 1000000]` followed by rounding the best found value up to the
next multiple of 10. -/
theorem solveRequiredDeposit_approx_minimal (b cb ncb : ℚ) (sd sm : Nat)
    (events : List SavingsEvent) (params : FinancialParams)
    (hne : events ≠ [])
    (hDC : ∀ x y : ℚ, 0 ≤ x → x ≤ y → y ≤ 1000000 →
      solverFailAt b cb ncb sd sm events params y = true →
      solverFailAt b cb ncb sd sm events params x = true) :
    (∃ k : ℤ, solveRequiredDeposit b cb ncb sd sm events params = (k : ℚ) * 10) ∧
    0 ≤ solveRequiredDeposit b cb ncb sd sm events params ∧
    solveRequiredDeposit b cb ncb sd sm events params ≤ 1000000 ∧
    (solverFailAt b cb ncb sd sm events params 1000000 = false →
      solverFailAt b cb ncb sd sm events params
        (solveRequiredDeposit b cb ncb sd sm events params) = false) ∧
    (∀ d : ℚ, 0 ≤ d → solverFailAt b cb ncb sd sm events params d = false →
      solveRequiredDeposit b cb ncb sd sm events params < d + (10 + 1000000 / 2 ^ 20)) := by
  have hunfold : solveRequiredDeposit b cb ncb sd sm events params =
      ((⌈(solveSearch (solverFailAt b cb ncb sd sm events params) 20
          (0, 1000000, 1000000)).2.2 / 10⌉ : ℤ) : ℚ) * 10 := by
    unfold solveRequiredDeposit
    rw [if_neg hne]
  have hrh := solveSearch_result_high (solverFailAt b cb ncb sd sm events params) 20
    (0, 1000000, 1000000) rfl
  have hinv := solveSearch_inv (solverFailAt b cb ncb sd sm events params) 1000000 20
    0 1000000 1000000 (le_refl 0) (by norm_num) (le_refl _) (Or.inr rfl) (Or.inr rfl)
  have hwidth := solveSearch_width (solverFailAt b cb ncb sd sm events params) 20 0 1000000 1000000
  set S := solveSearch (solverFailAt b cb ncb sd sm events params) 20 (0, 1000000, 1000000) with hSdef
  obtain ⟨hL0, hLH, hHc, hlow, hhigh⟩ := hinv
  have hH0 : 0 ≤ S.2.1 := le_trans hL0 hLH
  have hR : solveRequiredDeposit b cb ncb sd sm events params = ((⌈S.2.1 / 10⌉ : ℤ) : ℚ) * 10 := by
    rw [hunfold, hrh]
  have hceil0 : (0:ℤ) ≤ ⌈S.2.1 / 10⌉ := Int.ceil_nonneg (div_nonneg hH0 (by norm_num))
  have hHR : S.2.1 ≤ ((⌈S.2.1 / 10⌉ : ℤ) : ℚ) * 10 := by
    have h := Int.le_ceil (S.2.1 / 10)
    have h2 := mul_le_mul_of_nonneg_right h (by norm_num : (0:ℚ) ≤ 10)
    calc S.2.1 = S.2.1 / 10 * 10 := by ring
      _ ≤ _ := h2
  have hRlt : ((⌈S.2.1 / 10⌉ : ℤ) : ℚ) * 10 < S.2.1 + 10 := by
    have h := Int.ceil_lt_add_one (S.2.1 / 10)
    nlinarith [h]
  have hRcap : ((⌈S.2.1 / 10⌉ : ℤ) : ℚ) * 10 ≤ 1000000 := by
    have hc100 : (⌈(1000000:ℚ) / 10⌉ : ℤ) = 100000 := by
      rw [show (1000000:ℚ) / 10 = ((100000:ℤ) : ℚ) by norm_num, Int.ceil_intCast]
    have hmono : (⌈S.2.1 / 10⌉ : ℤ) ≤ 100000 := by
      rw [← hc100]
      exact Int.ceil_mono (by linarith)
    calc ((⌈S.2.1 / 10⌉ : ℤ) : ℚ) * 10 ≤ ((100000:ℤ) : ℚ) * 10 := by
          apply mul_le_mul_of_nonneg_right _ (by norm_num)
          exact_mod_cast hmono
      _ = 1000000 := by norm_num
  refine ⟨⟨⌈S.2.1 / 10⌉, hR⟩, ?_, ?_, ?_, ?_⟩
  · rw [hR]
    exact mul_nonneg (by exact_mod_cast hceil0) (by norm_num)
  · rw [hR]
    exact hRcap
  · intro hcap
    have hHfalse : solverFailAt b cb ncb sd sm events params S.2.1 = false := by
      rcases hhigh with h | h
      · exact h
      · rw [h]
        exact hcap
    rw [hR]
    cases hFR : solverFailAt b cb ncb sd sm events params (((⌈S.2.1 / 10⌉ : ℤ) : ℚ) * 10) with
    | false => rfl
    | true =>
      have hcontra := hDC S.2.1 (((⌈S.2.1 / 10⌉ : ℤ) : ℚ) * 10) hH0 hHR hRcap hFR
      rw [hHfalse] at hcontra
      exact absurd hcontra (by simp)
  · intro d hd hdF
    rw [hR]
    have hs : S.2.1 - S.1 = 1000000 / 2 ^ 20 := by
      rw [hwidth]
      norm_num
    rcases hlow with hfL | hL0eq
    · have hdL : S.1 < d := by
        by_contra hle
        push_neg at hle
        have hbad := hDC d S.1 hd hle (le_trans hLH hHc) hfL
        rw [hdF] at hbad
        exact absurd hbad (by simp)
      linarith [hRlt]
    · have hHs : S.2.1 = 1000000 / 2 ^ 20 := by
        rw [hL0eq] at hs
        linarith
      have hceil1 : (⌈S.2.1 / 10⌉ : ℤ) = 1 := by
        rw [hHs]
        rw [show (1000000:ℚ) / 2 ^ 20 / 10 = 15625 / 163840 by norm_num]
        rw [Int.ceil_eq_iff]
        constructor
        · norm_num
        · norm_num
      rw [hceil1]
      have hspos : (0:ℚ) < 1000000 / 2 ^ 20 := by norm_num
      have hone : ((1:ℤ) : ℚ) * 10 = 10 := by norm_num
      rw [hone]
      linarith

/-- Witness for the amended C1 at the demonstration input, where failure is
`deposit < 10` (downward closed): the returned deposit itself does not
fail. -/
theorem solveRequiredDeposit_approx_minimal_witness :
    solverFailAt 0 0 0 0 0 [demoEvent] demoParams
      (solveRequiredDeposit 0 0 0 0 0 [demoEvent] demoParams) = false :=
  (solveRequiredDeposit_approx_minimal 0 0 0 0 0 [demoEvent] demoParams
    (by simp)
    (by
      intro x y hx hxy hyc hf
      rw [demo_solverFailAt] at hf ⊢
      simp only [decide_eq_true_eq] at hf ⊢
      linarith)).2.2.2.1
    (by
      rw [demo_solverFailAt]
      norm_num)

/-! ## C8: solver monotonicity in the target amount -/

theorem profitRatio_nonneg (w : WithdrawState) :
    0 ≤ (if w.balance > 0 then max 0 (1 - w.costBasis / w.balance) else 0) := by
  split_ifs with hb
  · exact le_max_left _ _
  · exact le_refl 0

theorem profitRatio_le_one (w : WithdrawState) (hcb : 0 ≤ w.costBasis) :
    (if w.balance > 0 then max 0 (1 - w.costBasis / w.balance) else 0) ≤ 1 := by
  split_ifs with hb
  · apply max_le
    · norm_num
    · have : 0 ≤ w.costBasis / w.balance := div_nonneg hcb (le_of_lt hb)
      linarith
  · norm_num

theorem denom_pos (w : WithdrawState) (t : ℚ) (hcb : 0 ≤ w.costBasis)
    (ht0 : 0 ≤ t) (ht1 : t < 1) :
    0 < 1 - (if w.balance > 0 then max 0 (1 - w.costBasis / w.balance) else 0) * t := by
  have h1 := profitRatio_le_one w hcb
  have h0 := profitRatio_nonneg w
  have : (if w.balance > 0 then max 0 (1 - w.costBasis / w.balance) else 0) * t ≤ 1 * t :=
    mul_le_mul_of_nonneg_right h1 ht0
  linarith

theorem processEvent_failed_eq (t infl : ℚ) (m : Nat) (st : WithdrawState) (e : SavingsEvent) :
    (processEvent t infl m st e).failed =
      (if st.balance ≤ 0 ∧ (e.targetAmount * (1 + infl) ^ m) /
          (1 - (if st.balance > 0 then max 0 (1 - st.costBasis / st.balance) else 0) * t) > 0
       then true else st.failed) := rfl

theorem processEvent_failed_mono (t infl : ℚ) (m : Nat) (w : WithdrawState)
    (e1 e2 : SavingsEvent) (ht1 : 0 ≤ e1.targetAmount) (ht12 : e1.targetAmount ≤ e2.targetAmount)
    (hinfl : -1 ≤ infl) (ht0 : 0 ≤ t) (htl : t < 1) (hcb : 0 ≤ w.costBasis) :
    (if (processEvent t infl m w e1).balance < -1 then true
      else (processEvent t infl m w e1).failed) = true →
    (if (processEvent t infl m w e2).balance < -1 then true
      else (processEvent t infl m w e2).failed) = true := by
  intro h1
  obtain ⟨g1, hg1, hbal1, _, _⟩ := processEvent_cases t infl m w e1
  obtain ⟨g2, hg2, hbal2, _, _⟩ := processEvent_cases t infl m w e2
  have hD := denom_pos w t hcb ht0 htl
  have hf0 : (0:ℚ) ≤ (1 + infl) ^ m := pow_nonneg (by linarith) m
  have hgle : g1 ≤ g2 := by
    rw [hg1, hg2]
    exact (div_le_div_iff_of_pos_right hD).mpr (mul_le_mul_of_nonneg_right ht12 hf0)
  have hg1nn : 0 ≤ g1 := by
    rw [hg1]
    exact div_nonneg (mul_nonneg ht1 hf0) (le_of_lt hD)
  rw [processEvent_failed_eq, hbal2, ← hg2]
  rw [processEvent_failed_eq, hbal1, ← hg1] at h1
  by_cases hb2 : w.balance - g2 < -1
  · rw [if_pos hb2]
  · rw [if_neg hb2]
    by_cases hb1 : w.balance - g1 < -1
    · exfalso
      apply hb2
      linarith
    · rw [if_neg hb1] at h1
      by_cases hs1 : w.balance ≤ 0 ∧ g1 > 0
      · have hs2 : w.balance ≤ 0 ∧ g2 > 0 := ⟨hs1.1, lt_of_lt_of_le hs1.2 hgle⟩
        rw [if_pos hs2]
      · rw [if_neg hs1] at h1
        by_cases hs2 : w.balance ≤ 0 ∧ g2 > 0
        · rw [if_pos hs2]
        · rw [if_neg hs2]
          exact h1

theorem stepMonth_congr (params : FinancialParams)
    (E1 E2 : Nat → Option (List SavingsEvent)) (sd sm : Nat) (d : ℚ)
    (st : SimState) (i : Nat) (h : E1 (sm + i) = E2 (sm + i)) :
    stepMonth params E1 sd sm d st i = stepMonth params E2 sd sm d st i := by
  simp only [stepMonth]
  rw [h]

theorem stepMonth_none_costBasis (params : FinancialParams)
    (E : Nat → Option (List SavingsEvent)) (sd sm : Nat) (d : ℚ)
    (st : SimState) (i : Nat) (h : E (sm + i) = none) :
    (stepMonth params E sd sm d st i).1.costBasis =
      (st.costBasis + d) * (1 + params.monthlyInflationRate) := by
  simp only [stepMonth]
  rw [h]

theorem buildPeriodEvents_singleton (e : SavingsEvent) (m : Nat) :
    buildPeriodEvents [e] m = if e.monthOffset = m then some [e] else none := by
  unfold buildPeriodEvents
  by_cases h : e.monthOffset = m
  · simp [h]
  · simp [h]

theorem stepMonth_failed_mono_single (params : FinancialParams) (sd sm : Nat) (d : ℚ)
    (st : SimState) (i : Nat) (e1 e2 : SavingsEvent)
    (hoff : e1.monthOffset = e2.monthOffset)
    (ht1 : 0 ≤ e1.targetAmount) (ht12 : e1.targetAmount ≤ e2.targetAmount)
    (hinfl : -1 ≤ params.monthlyInflationRate)
    (htax0 : 0 ≤ params.taxRate) (htax1 : params.taxRate < 1)
    (hd : 0 ≤ d) (hcb : 0 ≤ st.costBasis)
    (hm1 : e1.monthOffset = sm + i) :
    (stepMonth params (buildPeriodEvents [e1]) sd sm d st i).1.failed = true →
    (stepMonth params (buildPeriodEvents [e2]) sd sm d st i).1.failed = true := by
  have hE1 : buildPeriodEvents [e1] (sm + i) = some [e1] := by
    rw [buildPeriodEvents_singleton, if_pos hm1]
  have hE2 : buildPeriodEvents [e2] (sm + i) = some [e2] := by
    rw [buildPeriodEvents_singleton, if_pos (hoff ▸ hm1)]
  intro hfail
  simp only [stepMonth, hE1, List.foldl_cons, List.foldl_nil] at hfail
  simp only [stepMonth, hE2, List.foldl_cons, List.foldl_nil]
  refine processEvent_failed_mono params.taxRate params.monthlyInflationRate (sm + i) _
    e1 e2 ht1 ht12 hinfl htax0 htax1 ?_ hfail
  show 0 ≤ (st.costBasis + d) * (1 + params.monthlyInflationRate)
  exact mul_nonneg (by linarith) (by linarith)

theorem runSimAux_failed_mono_single (params : FinancialParams) (sd sm : Nat) (d : ℚ)
    (e1 e2 : SavingsEvent) (hoff : e1.monthOffset = e2.monthOffset)
    (ht1 : 0 ≤ e1.targetAmount) (ht12 : e1.targetAmount ≤ e2.targetAmount)
    (hinfl : -1 ≤ params.monthlyInflationRate)
    (htax0 : 0 ≤ params.taxRate) (htax1 : params.taxRate < 1)
    (hd : 0 ≤ d) :
    ∀ (n : Nat) (st : SimState) (i : Nat),
      0 ≤ st.costBasis →
      sm + i + n ≤ e1.monthOffset + 1 →
      (runSimAux params (buildPeriodEvents [e1]) sd sm d st i n).1.failed = true →
      (runSimAux params (buildPeriodEvents [e2]) sd sm d st i n).1.failed = true := by
  intro n
  induction n with
  | zero => intro st i _ _ h; exact h
  | succ k ih =>
    intro st i hcb hlast hfail
    by_cases hM : e1.monthOffset = sm + i
    · have hk0 : k = 0 := by omega
      subst hk0
      have h1 : (runSimAux params (buildPeriodEvents [e1]) sd sm d st i 1).1 =
          (stepMonth params (buildPeriodEvents [e1]) sd sm d st i).1 := rfl
      have h2 : (runSimAux params (buildPeriodEvents [e2]) sd sm d st i 1).1 =
          (stepMonth params (buildPeriodEvents [e2]) sd sm d st i).1 := rfl
      rw [h1] at hfail
      rw [h2]
      exact stepMonth_failed_mono_single params sd sm d st i e1 e2 hoff ht1 ht12 hinfl
        htax0 htax1 hd hcb hM hfail
    · have hnone1 : buildPeriodEvents [e1] (sm + i) = none := by
        rw [buildPeriodEvents_singleton, if_neg hM]
      have hnone2 : buildPeriodEvents [e2] (sm + i) = none := by
        rw [buildPeriodEvents_singleton, if_neg (by rw [← hoff]; exact hM)]
      have hstep : stepMonth params (buildPeriodEvents [e1]) sd sm d st i =
          stepMonth params (buildPeriodEvents [e2]) sd sm d st i :=
        stepMonth_congr params _ _ sd sm d st i (by rw [hnone1, hnone2])
      have hcb2 : 0 ≤ (stepMonth params (buildPeriodEvents [e1]) sd sm d st i).1.costBasis := by
        rw [stepMonth_none_costBasis params _ sd sm d st i hnone1]
        exact mul_nonneg (by linarith) (by linarith)
      show (runSimAux params (buildPeriodEvents [e2]) sd sm d
        (stepMonth params (buildPeriodEvents [e2]) sd sm d st i).1 (i + 1) k).1.failed = true
      rw [← hstep]
      exact ih (stepMonth params (buildPeriodEvents [e1]) sd sm d st i).1 (i + 1)
        hcb2 (by omega) hfail

theorem solveSearch_mono (f g : ℚ → Bool) (c : ℚ)
    (hfg : ∀ x, 0 ≤ x → x ≤ c → f x = true → g x = true) :
    ∀ (n : Nat) (l1 h1 r1 l2 h2 r2 : ℚ),
      0 ≤ l1 → l1 ≤ h1 → h1 ≤ c →
      0 ≤ l2 → l2 ≤ h2 → h2 ≤ c →
      ((l1 = l2 ∧ h1 = h2) ∨ h1 ≤ l2) →
      (solveSearch f n (l1, h1, r1)).2.1 ≤ (solveSearch g n (l2, h2, r2)).2.1 := by
  intro n
  induction n with
  | zero =>
    intro l1 h1 r1 l2 h2 r2 _ _ _ _ b5 _ hrel
    rcases hrel with ⟨_, he2⟩ | hle
    · exact le_of_eq he2
    · show h1 ≤ h2
      linarith
  | succ k ih =>
    intro l1 h1 r1 l2 h2 r2 b1 b2 b3 b4 b5 b6 hrel
    rw [solveSearch_succ, solveSearch_succ]
    unfold searchStep
    rcases hrel with ⟨he1, he2⟩ | hle
    · subst he1
      subst he2
      by_cases hf : f ((l1 + h1) / 2) = true
      · have hg : g ((l1 + h1) / 2) = true := hfg _ (by linarith) (by linarith) hf
        rw [if_pos hf, if_pos hg]
        exact ih ((l1 + h1) / 2) h1 r1 ((l1 + h1) / 2) h1 r2 (by linarith) (by linarith) b3
          (by linarith) (by linarith) b3 (Or.inl ⟨rfl, rfl⟩)
      · rw [if_neg hf]
        by_cases hg : g ((l1 + h1) / 2) = true
        · rw [if_pos hg]
          exact ih l1 ((l1 + h1) / 2) ((l1 + h1) / 2) ((l1 + h1) / 2) h1 r2 b1 (by linarith)
            (by linarith) (by linarith) (by linarith) b3 (Or.inr (le_refl _))
        · rw [if_neg hg]
          exact ih l1 ((l1 + h1) / 2) ((l1 + h1) / 2) l1 ((l1 + h1) / 2) ((l1 + h1) / 2) b1
            (by linarith) (by linarith) b1 (by linarith) (by linarith) (Or.inl ⟨rfl, rfl⟩)
    · by_cases hf : f ((l1 + h1) / 2) = true
      · rw [if_pos hf]
        by_cases hg : g ((l2 + h2) / 2) = true
        · rw [if_pos hg]
          exact ih ((l1 + h1) / 2) h1 r1 ((l2 + h2) / 2) h2 r2 (by linarith) (by linarith) b3
            (by linarith) (by linarith) b6 (Or.inr (by linarith))
        · rw [if_neg hg]
          exact ih ((l1 + h1) / 2) h1 r1 l2 ((l2 + h2) / 2) ((l2 + h2) / 2) (by linarith)
            (by linarith) b3 b4 (by linarith) (by linarith) (Or.inr (by linarith))
      · rw [if_neg hf]
        by_cases hg : g ((l2 + h2) / 2) = true
        · rw [if_pos hg]
          exact ih l1 ((l1 + h1) / 2) ((l1 + h1) / 2) ((l2 + h2) / 2) h2 r2 b1 (by linarith)
            (by linarith) (by linarith) (by linarith) b6 (Or.inr (by linarith))
        · rw [if_neg hg]
          exact ih l1 ((l1 + h1) / 2) ((l1 + h1) / 2) l2 ((l2 + h2) / 2) ((l2 + h2) / 2) b1
            (by linarith) (by linarith) b4 (by linarith) (by linarith) (Or.inr (by linarith))

theorem solverFailAt_eq_aux (b cb ncb : ℚ) (sd sm : Nat) (events : List SavingsEvent)
    (params : FinancialParams) (x : ℚ) :
    solverFailAt b cb ncb sd sm events params x =
      (runSimAux params (buildPeriodEvents events) sd sm x ⟨b, cb, ncb, false⟩ 0
        (lastEventMonth events + 1 - sm)).1.failed := rfl

/-- C8.  For a single goal at a fixed month offset, with everything else
fixed, raising the target amount never lowers the solver result.  The
hypotheses are the intended parameter domain: a nonnegative starting cost
basis, a monthly inflation rate at least -1 (every value derivable from an
annual percentage satisfies this), a capital-gains tax rate below 100%, and
nonnegative targets. -/
theorem solveRequiredDeposit_mono_target (b cb ncb : ℚ) (sd sm : Nat)
    (params : FinancialParams) (i1 i2 : Nat) (nm1 nm2 : String) (M : Nat) (t1 t2 : ℚ)
    (hcb : 0 ≤ cb) (hinfl : -1 ≤ params.monthlyInflationRate)
    (htax0 : 0 ≤ params.taxRate) (htax1 : params.taxRate < 1)
    (ht1 : 0 ≤ t1) (ht12 : t1 ≤ t2) :
    solveRequiredDeposit b cb ncb sd sm [⟨i1, nm1, M, t1⟩] params ≤
      solveRequiredDeposit b cb ncb sd sm [⟨i2, nm2, M, t2⟩] params := by
  have hmaxM : max 0 M = M := Nat.zero_max M
  have hfg : ∀ x : ℚ, 0 ≤ x → x ≤ 1000000 →
      solverFailAt b cb ncb sd sm [⟨i1, nm1, M, t1⟩] params x = true →
      solverFailAt b cb ncb sd sm [⟨i2, nm2, M, t2⟩] params x = true := by
    intro x hx _ hfail
    rw [solverFailAt_eq_aux] at hfail ⊢
    have hlem : lastEventMonth [(⟨i2, nm2, M, t2⟩ : SavingsEvent)] =
        lastEventMonth [(⟨i1, nm1, M, t1⟩ : SavingsEvent)] := rfl
    have h1 : lastEventMonth [(⟨i1, nm1, M, t1⟩ : SavingsEvent)] = max 0 M := rfl
    rw [hlem]
    rcases le_or_lt sm M with hsm | hsm
    · refine runSimAux_failed_mono_single params sd sm x ⟨i1, nm1, M, t1⟩ ⟨i2, nm2, M, t2⟩
        rfl ht1 ht12 hinfl htax0 htax1 hx _ ⟨b, cb, ncb, false⟩ 0 hcb ?_ hfail
      show sm + 0 + (lastEventMonth [(⟨i1, nm1, M, t1⟩ : SavingsEvent)] + 1 - sm) ≤ M + 1
      rw [h1, hmaxM]
      omega
    · have hdur : lastEventMonth [(⟨i1, nm1, M, t1⟩ : SavingsEvent)] + 1 - sm = 0 := by
        rw [h1, hmaxM]
        omega
      rw [hdur] at hfail
      simp [runSimAux] at hfail
  have hu1 : solveRequiredDeposit b cb ncb sd sm [⟨i1, nm1, M, t1⟩] params =
      ((⌈(solveSearch (solverFailAt b cb ncb sd sm [⟨i1, nm1, M, t1⟩] params) 20
        (0, 1000000, 1000000)).2.2 / 10⌉ : ℤ) : ℚ) * 10 := by
    unfold solveRequiredDeposit
    rw [if_neg (by simp)]
  have hu2 : solveRequiredDeposit b cb ncb sd sm [⟨i2, nm2, M, t2⟩] params =
      ((⌈(solveSearch (solverFailAt b cb ncb sd sm [⟨i2, nm2, M, t2⟩] params) 20
        (0, 1000000, 1000000)).2.2 / 10⌉ : ℤ) : ℚ) * 10 := by
    unfold solveRequiredDeposit
    rw [if_neg (by simp)]
  rw [hu1, hu2]
  rw [solveSearch_result_high (solverFailAt b cb ncb sd sm [⟨i1, nm1, M, t1⟩] params) 20
    (0, 1000000, 1000000) rfl]
  rw [solveSearch_result_high (solverFailAt b cb ncb sd sm [⟨i2, nm2, M, t2⟩] params) 20
    (0, 1000000, 1000000) rfl]
  have hmono := solveSearch_mono
    (solverFailAt b cb ncb sd sm [⟨i1, nm1, M, t1⟩] params)
    (solverFailAt b cb ncb sd sm [⟨i2, nm2, M, t2⟩] params)
    1000000 hfg 20 0 1000000 1000000 0 1000000 1000000
    (le_refl 0) (by norm_num) (le_refl _) (le_refl 0) (by norm_num) (le_refl _)
    (Or.inl ⟨rfl, rfl⟩)
  have hceil : (⌈(solveSearch (solverFailAt b cb ncb sd sm [⟨i1, nm1, M, t1⟩] params) 20
      (0, 1000000, 1000000)).2.1 / 10⌉ : ℤ) ≤
      ⌈(solveSearch (solverFailAt b cb ncb sd sm [⟨i2, nm2, M, t2⟩] params) 20
      (0, 1000000, 1000000)).2.1 / 10⌉ :=
    Int.ceil_mono (by linarith)
  exact mul_le_mul_of_nonneg_right (Int.cast_le.mpr hceil) (by norm_num)

/-- Witness for C8 at concrete targets 5 and 7 with zero rates. -/
theorem solveRequiredDeposit_mono_target_witness :
    solveRequiredDeposit 0 0 0 0 0 [⟨0, "a", 0, 5⟩] demoParams ≤
      solveRequiredDeposit 0 0 0 0 0 [⟨1, "b", 0, 7⟩] demoParams :=
  solveRequiredDeposit_mono_target 0 0 0 0 0 demoParams 0 1 "a" "b" 0 5 7
    (le_refl 0) (by norm_num [demoParams]) (by norm_num [demoParams])
    (by norm_num [demoParams]) (by norm_num) (by norm_num)
